import Mathlib

/-!
Verification development for the CAR / DAG-CBOR / MST decoding core of
`blueskysight/utils.py`.

The Python source is shallowly embedded: the seekable in-memory byte stream
(`io.BytesIO`) becomes an explicit `BStream` record, Python byte strings become
`List Nat` (each element a byte value), Python's dynamically typed decoded
values become the closed inductive `Value`, and every fallible operation
returns `Except Err _` with one distinct `Err` constructor per `raise` /
`assert` site of the source.  Recursion that Python bounds only by input
nesting is made total with an explicit `fuel` argument; `Err.outOfFuel` is the
only outcome a real execution can never produce.
-/

/-- One distinct error constructor per failure site of `utils.py`. -/
inductive Err where
  /-- `stream.read(1)[0]` on an exhausted stream (`IndexError`). -/
  | indexError
  /-- `{20: False, 21: True, 22: None}[additional_info]` miss (`KeyError`). -/
  | keyError
  /-- `MajorType(first >> 5)` with an argument outside 0..7 (`ValueError`);
      unreachable for byte values below 256. -/
  | enumValueError
  /-- `raise Exception("invalid")` for a 1-byte float body. -/
  | invalidFloat
  /-- `raise Exception("unreachable")` in the float byte-length dispatch. -/
  | unreachableFloat
  /-- `raise Exception("indefinite lengths not supported by this implementation")`. -/
  | indefiniteLength
  /-- `raise Exception("not well-formed")` for additional info 28..30. -/
  | notWellFormed
  /-- `raise EOFError()` when a string body read returns fewer bytes than requested. -/
  | eofError
  /-- `raise ValueError("DAG-CBOR only accepts strings as map keys")`. -/
  | mapKeyValueError
  /-- `value.decode()` on invalid UTF-8 (`UnicodeDecodeError`). -/
  | unicodeDecodeError
  /-- `raise Exception("non-42 tags are not supported")`. -/
  | nonTag42
  /-- `assert type(cid_bytes) is bytes` failed. -/
  | cidBytesAssert
  /-- `assert len(cid_bytes) == 37` failed. -/
  | cidLenAssert
  /-- `assert cid_bytes.startswith(...)` (tag-42 multibase layouts) failed. -/
  | cidStartTagAssert
  /-- `assert stream.tell() - header_start == header_len` failed. -/
  | headerLenAssert
  /-- `assert car_header.get("version") == 1` failed. -/
  | versionAssert
  /-- `assert len(car_header.get("roots", [])) == 1` failed. -/
  | rootsAssert
  /-- `assert cid_raw.startswith(b"\x01q\x12 ")` failed. -/
  | cidStartAssert
  /-- `assert cid_raw.endswith(content_hash)` failed. -/
  | cidHashAssert
  /-- `assert not block_data_stream.read()` failed (trailing bytes in a block). -/
  | blockTrailingAssert
  /-- `assert stream.tell() - block_start == block_len` failed. -/
  | blockLenAssert
  /-- `assert entry["p"] <= len(prev_key)` failed. -/
  | mstPAssert
  /-- A Python `TypeError` (e.g. `len()` of an int, unhashable dict probe,
      comparing a non-number with an int, concatenating bytes with non-bytes). -/
  | typeError
  /-- A Python `AttributeError` (`.get` on a non-dict value). -/
  | attributeError
  /-- A Python `KeyError` from a dict subscript (`node["e"]`, `entry["p"]`, ...). -/
  | dictKeyError
  /-- Branch that is unreachable in the embedding (a parser head value of the
      wrong shape for its major type; the head decoder never produces it). -/
  | modelUnreachable
  /-- Fuel exhaustion of the embedding; no Python behaviour corresponds to it. -/
  | outOfFuel
deriving DecidableEq, Repr

/-- The 8-value major-type enumeration `MajorType` of `utils.py` lines 46-54. -/
inductive MajorType where
  | UNSIGNED_INT
  | NEGATIVE_INT
  | BYTE_STRING
  | TEXT_STRING
  | ARRAY
  | MAP
  | TAG
  | FLOAT
deriving DecidableEq, Repr

/-- `MajorType(n)`: Python's `Enum` constructor, `ValueError` outside 0..7. -/
def MajorType.fromNat : Nat → Option MajorType
  | 0 => some .UNSIGNED_INT
  | 1 => some .NEGATIVE_INT
  | 2 => some .BYTE_STRING
  | 3 => some .TEXT_STRING
  | 4 => some .ARRAY
  | 5 => some .MAP
  | 6 => some .TAG
  | 7 => some .FLOAT
  | _ => none

/-- A decoded Python value as produced by `parse_dag_cbor_object`.

Python's `str` (used both for decoded text strings and for the base32 CID
strings produced by the tag-42 branch and by `parse_car`) is represented as
its UTF-8 byte sequence in `.str`.  IEEE floats are kept as the raw big-endian
bytes read from the stream (`.float`); no claim inspects a float's numeric
value, only the handful of bit patterns equal to `1` (see `pyEqOne`). -/
inductive Value where
  | int (i : Int)
  | bool (b : Bool)
  | null
  | float (bytes : List Nat)
  | bytes (b : List Nat)
  | str (s : List Nat)
  | arr (vs : List Value)
  | map (kvs : List (Value × Value))

/-- The in-memory seekable byte stream (`io.BytesIO`): the full buffer plus a
read position.  `tell()` is `pos`. -/
structure BStream where
  data : List Nat
  pos : Nat
deriving DecidableEq, Repr

/-- `stream.read(k)`: a negative `k` (like Python's `read` with a negative
count) returns the whole remaining buffer; otherwise at most `k` bytes are
returned and the position advances by the number of bytes actually read. -/
def BStream.readN (s : BStream) (k : Int) : List Nat × BStream :=
  if k < 0 then
    let r := s.data.drop s.pos
    (r, ⟨s.data, s.pos + r.length⟩)
  else
    let r := (s.data.drop s.pos).take k.toNat
    (r, ⟨s.data, s.pos + r.length⟩)

/-- The bytes still unread. -/
def BStream.remaining (s : BStream) : List Nat :=
  s.data.drop s.pos

/-- `bytes.startswith(p)`. -/
def startsWithBytes (l p : List Nat) : Bool :=
  decide (l.take p.length = p)

/-- `bytes.endswith(p)` (if `p` is longer than `l` the lengths differ and the
comparison is false, matching Python). -/
def endsWithBytes (l p : List Nat) : Bool :=
  decide (l.drop (l.length - p.length) = p)

/-- `int.from_bytes(b, "big")`. -/
def intFromBytesBE (b : List Nat) : Nat :=
  b.foldl (fun a x => a * 256 + x) 0

/-- Character `i` (0..31) of the lowercase RFC 4648 base32 alphabet
`abcdefghijklmnopqrstuvwxyz234567`, as an ASCII code. -/
def b32char (i : Nat) : Nat :=
  if i < 26 then 97 + i else 24 + i

/-- Bit accumulator core of base32: `nbits` (< 5 at every entry) bits of
carry, MSB first; each byte adds 8 bits and 1 or 2 complete 5-bit groups are
emitted; a final partial group is padded with zero bits, which together with
dropping the `=` pad characters models `base64.b32encode(..)` followed by
`.rstrip(b"=")`. -/
def b32core : List Nat → Nat → Nat → List Nat
  | [], nbits, acc => if nbits = 0 then [] else [(acc <<< (5 - nbits)) &&& 31]
  | b :: rest, nbits, acc =>
    let acc2 := (acc <<< 8) ||| (b &&& 255)
    let n2 := nbits + 8
    if n2 ≥ 10 then
      ((acc2 >>> (n2 - 5)) &&& 31) :: ((acc2 >>> (n2 - 10)) &&& 31) ::
        b32core rest (n2 - 10) (acc2 &&& (2 ^ (n2 - 10) - 1))
    else
      ((acc2 >>> (n2 - 5)) &&& 31) :: b32core rest (n2 - 5) (acc2 &&& (2 ^ (n2 - 5) - 1))

/-- `base64.b32encode(b).decode().lower().rstrip("=")`, as ASCII codes. -/
def b32encodeLower (b : List Nat) : List Nat :=
  (b32core b 0 0).map b32char

/-- Strict UTF-8 validity (RFC 3629: no overlongs, no surrogates, max
U+10FFFF), the check performed by Python's `bytes.decode()`. -/
def validUtf8 : List Nat → Bool
  | [] => true
  | b :: rest =>
    if b < 0x80 then validUtf8 rest
    else if 0xC2 ≤ b && b ≤ 0xDF then
      match rest with
      | c :: r2 => (0x80 ≤ c && c ≤ 0xBF) && validUtf8 r2
      | [] => false
    else if b = 0xE0 then
      match rest with
      | c :: d :: r2 => (0xA0 ≤ c && c ≤ 0xBF) && (0x80 ≤ d && d ≤ 0xBF) && validUtf8 r2
      | _ => false
    else if 0xE1 ≤ b && b ≤ 0xEC then
      match rest with
      | c :: d :: r2 => (0x80 ≤ c && c ≤ 0xBF) && (0x80 ≤ d && d ≤ 0xBF) && validUtf8 r2
      | _ => false
    else if b = 0xED then
      match rest with
      | c :: d :: r2 => (0x80 ≤ c && c ≤ 0x9F) && (0x80 ≤ d && d ≤ 0xBF) && validUtf8 r2
      | _ => false
    else if 0xEE ≤ b && b ≤ 0xEF then
      match rest with
      | c :: d :: r2 => (0x80 ≤ c && c ≤ 0xBF) && (0x80 ≤ d && d ≤ 0xBF) && validUtf8 r2
      | _ => false
    else if b = 0xF0 then
      match rest with
      | c :: d :: e :: r2 =>
        (0x90 ≤ c && c ≤ 0xBF) && (0x80 ≤ d && d ≤ 0xBF) && (0x80 ≤ e && e ≤ 0xBF) && validUtf8 r2
      | _ => false
    else if 0xF1 ≤ b && b ≤ 0xF3 then
      match rest with
      | c :: d :: e :: r2 =>
        (0x80 ≤ c && c ≤ 0xBF) && (0x80 ≤ d && d ≤ 0xBF) && (0x80 ≤ e && e ≤ 0xBF) && validUtf8 r2
      | _ => false
    else if b = 0xF4 then
      match rest with
      | c :: d :: e :: r2 =>
        (0x80 ≤ c && c ≤ 0x8F) && (0x80 ≤ d && d ≤ 0xBF) && (0x80 ≤ e && e ≤ 0xBF) && validUtf8 r2
      | _ => false
    else false

/-- Splits a UTF-8 byte sequence into the byte runs of its characters
(Python's `str` iteration / indexing unit).  On valid UTF-8 each run is one
code point; a truncated trailing sequence is kept as one run. -/
def utf8Chars : List Nat → List (List Nat)
  | [] => []
  | b :: rest =>
    if b < 0x80 then [b] :: utf8Chars rest
    else if b < 0xE0 then
      match rest with
      | c :: r2 => [b, c] :: utf8Chars r2
      | [] => [[b]]
    else if b < 0xF0 then
      match rest with
      | c :: d :: r2 => [b, c, d] :: utf8Chars r2
      | _ => [b :: rest]
    else
      match rest with
      | c :: d :: e :: r2 => [b, c, d, e] :: utf8Chars r2
      | _ => [b :: rest]

/-- `parse_cbor_head` (utils.py lines 57-92): reads one head byte, splits it
into major type (top 3 bits) and additional info (bottom 5 bits), and returns
the head's value together with the advanced stream.

Faithful quirks kept from the source: a `NEGATIVE_INT` head with additional
info below 24 returns the info itself (the `-1 - value` adjustment is applied
only in the multi-byte branch); the multi-byte branch decodes whatever bytes
`read` returned — possibly fewer than requested — big-endian, without any
end-of-input check (for `FLOAT` the byte-length dispatch then looks at the
actual length). -/
def parse_cbor_head (stream : BStream) : Except Err (MajorType × Value × BStream) :=
  match stream.readN 1 with
  | ([], _) => .error .indexError
  | (first :: _, s) =>
    match MajorType.fromNat (first >>> 5) with
    | none => .error .enumValueError
    | some major_type =>
      let additional_info := first &&& 0x1F
      if additional_info < 24 then
        if major_type = .FLOAT then
          if additional_info = 20 then .ok (major_type, .bool false, s)
          else if additional_info = 21 then .ok (major_type, .bool true, s)
          else if additional_info = 22 then .ok (major_type, .null, s)
          else .error .keyError
        else .ok (major_type, .int additional_info, s)
      else if additional_info = 24 ∨ additional_info = 25 ∨
              additional_info = 26 ∨ additional_info = 27 then
        let blen : Int :=
          if additional_info = 24 then 1 else if additional_info = 25 then 2
          else if additional_info = 26 then 4 else 8
        match s.readN blen with
        | (byte_value, s2) =>
          if major_type = .NEGATIVE_INT then
            .ok (major_type, .int (-1 - (intFromBytesBE byte_value : Int)), s2)
          else if major_type = .FLOAT then
            if byte_value.length = 1 then .error .invalidFloat
            else if byte_value.length = 2 ∨ byte_value.length = 4 ∨ byte_value.length = 8 then
              .ok (major_type, .float byte_value, s2)
            else .error .unreachableFloat
          else .ok (major_type, .int (intFromBytesBE byte_value), s2)
      else if additional_info = 31 then .error .indefiniteLength
      else .error .notWellFormed

/-- Loop body of `parse_varint` (utils.py lines 96-104) over the remaining
bytes: returns the decoded value and the number of bytes consumed.  An
exhausted stream fails like `stream.read(1)[0]` does (`IndexError`). -/
def parse_varint_aux : List Nat → Nat → Nat → Except Err (Nat × Nat)
  | [], _, _ => .error .indexError
  | val :: rest, shift, n0 =>
    let n := n0 ||| ((val &&& 0x7F) <<< shift)
    if val &&& 0x80 = 0 then .ok (n, 1)
    else
      match parse_varint_aux rest (shift + 7) n with
      | .error e => .error e
      | .ok (r, c) => .ok (r, c + 1)

/-- `parse_varint` (utils.py lines 96-104). -/
def parse_varint (s : BStream) : Except Err (Nat × BStream) :=
  match parse_varint_aux (s.data.drop s.pos) 0 0 with
  | .error e => .error e
  | .ok (n, c) => .ok (n, ⟨s.data, s.pos + c⟩)

/-- Equality of the hashable (non-container) Python values, as used for dict
key comparison.  In every execution of this program dict keys are `str` or
`bytes` values (the map parser rejects every other key type and the MST
record keys are byte strings), on which Python `==` is exactly structural
equality; `.arr` / `.map` values are unhashable and are never inserted. -/
def Value.atomEq : Value → Value → Bool
  | .int a, .int b => decide (a = b)
  | .bool a, .bool b => decide (a = b)
  | .null, .null => true
  | .float a, .float b => decide (a = b)
  | .bytes a, .bytes b => decide (a = b)
  | .str a, .str b => decide (a = b)
  | _, _ => false

/-- Lookup in a Python dict represented as an insertion-ordered association
list. -/
def valueDictGet : List (Value × Value) → Value → Option Value
  | [], _ => none
  | (k, v) :: rest, key => if k.atomEq key then some v else valueDictGet rest key

/-- `d[key] = v` on a Python dict: an existing key keeps its position and gets
the new value; a new key is appended at the end. -/
def valueDictInsert : List (Value × Value) → Value → Value → List (Value × Value)
  | [], key, v => [(key, v)]
  | (k0, v0) :: rest, key, v =>
    if k0.atomEq key then (k0, v) :: rest
    else (k0, v0) :: valueDictInsert rest key v

/-- Generic association-list lookup (Python dicts whose keys are plain byte
strings: the CID-keyed block mapping and the MST record accumulator). -/
def assocGet {κ : Type} [DecidableEq κ] {α : Type} : List (κ × α) → κ → Option α
  | [], _ => none
  | (k, v) :: rest, key => if k = key then some v else assocGet rest key

/-- Generic Python-dict update (see `valueDictInsert`). -/
def assocInsert {κ : Type} [DecidableEq κ] {α : Type} : List (κ × α) → κ → α → List (κ × α)
  | [], key, v => [(key, v)]
  | (k0, v0) :: rest, key, v =>
    if k0 = key then (k0, v) :: rest
    else (k0, v0) :: assocInsert rest key v

/-- `a |= b` on Python dicts: fold `b`'s entries into `a`, overwriting. -/
def assocMerge {κ : Type} [DecidableEq κ] {α : Type}
    (a b : List (κ × α)) : List (κ × α) :=
  b.foldl (fun acc kv => assocInsert acc kv.1 kv.2) a

/-- The element loop of the `ARRAY` branch of `parse_dag_cbor_object`
(utils.py lines 125-129): decode `n` values in order. -/
def parseItems (p : BStream → Except Err (Value × BStream)) :
    Nat → BStream → Except Err (List Value × BStream)
  | 0, s => .ok ([], s)
  | n + 1, s =>
    match p s with
    | .error e => .error e
    | .ok (v, s1) =>
      match parseItems p n s1 with
      | .error e => .error e
      | .ok (vs, s2) => .ok (v :: vs, s2)

/-- The entry loop of the `MAP` branch of `parse_dag_cbor_object`
(utils.py lines 131-139): decode a key, require it to be a string, decode the
value, store with dict-update semantics. -/
def parseMapItems (p : BStream → Except Err (Value × BStream)) :
    Nat → BStream → List (Value × Value) → Except Err (List (Value × Value) × BStream)
  | 0, s, acc => .ok (acc, s)
  | n + 1, s, acc =>
    match p s with
    | .error e => .error e
    | .ok (key, s1) =>
      match key with
      | .str ks =>
        match p s1 with
        | .error e => .error e
        | .ok (v, s2) => parseMapItems p n s2 (valueDictInsert acc (.str ks) v)
      | _ => .error .mapKeyValueError

/-- `parse_dag_cbor_object` (utils.py lines 108-150), with a fuel argument
bounding the recursion depth (Python's is bounded only by the call stack).

Source behaviour embedded branch by branch: scalar majors return the head
value unchanged; string bodies are read exactly and a short read raises
`EOFError`; text strings must be valid UTF-8; arrays and maps loop over the
head's count (`range` of a negative count is empty); map keys must be `str`;
only tag 42 is allowed, its payload must be a 37-byte `bytes` value starting
with one of the two accepted multibase/CIDv1 layouts (DAG-CBOR `00 01 71 12 20`
or raw `00 01 55 12 20`), and it decodes to the string
`"b" + base32(cid_bytes[1:]).lower()` without padding. -/
def parse_dag_cbor_object : Nat → BStream → Except Err (Value × BStream)
  | 0, _ => .error .outOfFuel
  | fuel + 1, stream =>
    match parse_cbor_head stream with
    | .error e => .error e
    | .ok (major_type, info, s) =>
      match major_type with
      | .UNSIGNED_INT => .ok (info, s)
      | .NEGATIVE_INT => .ok (info, s)
      | .FLOAT => .ok (info, s)
      | .BYTE_STRING =>
        match info with
        | .int n =>
          match s.readN n with
          | (value, s1) =>
            if (value.length : Int) = n then .ok (.bytes value, s1)
            else .error .eofError
        | _ => .error .modelUnreachable
      | .TEXT_STRING =>
        match info with
        | .int n =>
          match s.readN n with
          | (value, s1) =>
            if (value.length : Int) = n then
              if validUtf8 value then .ok (.str value, s1)
              else .error .unicodeDecodeError
            else .error .eofError
        | _ => .error .modelUnreachable
      | .ARRAY =>
        match info with
        | .int n =>
          match parseItems (fun s2 => parse_dag_cbor_object fuel s2) n.toNat s with
          | .error e => .error e
          | .ok (values, s1) => .ok (.arr values, s1)
        | _ => .error .modelUnreachable
      | .MAP =>
        match info with
        | .int n =>
          match parseMapItems (fun s2 => parse_dag_cbor_object fuel s2) n.toNat s [] with
          | .error e => .error e
          | .ok (values, s1) => .ok (.map values, s1)
        | _ => .error .modelUnreachable
      | .TAG =>
        match info with
        | .int i =>
          if i ≠ 42 then .error .nonTag42
          else
            match parse_dag_cbor_object fuel s with
            | .error e => .error e
            | .ok (cid_bytes, s1) =>
              match cid_bytes with
              | .bytes cb =>
                if cb.length ≠ 37 then .error .cidLenAssert
                else if startsWithBytes cb [0x00, 0x01, 0x71, 0x12, 0x20] ||
                        startsWithBytes cb [0x00, 0x01, 0x55, 0x12, 0x20] then
                  .ok (.str (98 :: b32encodeLower (cb.drop 1)), s1)
                else .error .cidStartTagAssert
              | _ => .error .cidBytesAssert
        | _ => .error .modelUnreachable

/-- Python `x == 1` on a decoded value (the `version` check of `parse_car`).
`True == 1` holds because `bool` is an `int` subclass, and an IEEE float
equals `1` exactly when its bits are the unique representation of `1.0` at
its width (half `3C00`, single `3F800000`, double `3FF0...0`); a missing key
(`None`) is not equal to `1`. -/
def pyEqOne : Option Value → Bool
  | some (.int 1) => true
  | some (.bool true) => true
  | some (.float bs) =>
    decide (bs = [0x3C, 0x00]) || decide (bs = [0x3F, 0x80, 0x00, 0x00]) ||
      decide (bs = [0x3F, 0xF0, 0x00, 0x00, 0x00, 0x00, 0x00, 0x00])
  | _ => false

/-- Python `len(x)`: defined for sequences and mappings (a `str`'s length is
its number of code points), `TypeError` otherwise. -/
def pyLen : Value → Except Err Nat
  | .arr vs => .ok vs.length
  | .map kvs => .ok kvs.length
  | .bytes b => .ok b.length
  | .str s => .ok (utf8Chars s).length
  | _ => .error .typeError

/-- Python `x[0]` (used for `car_header["roots"][0]`): first element of a
list, first character of a `str`, first byte (as an int) of a `bytes`; a dict
looks up the key `0`, which this program's dicts (string-keyed by
construction) never contain; `TypeError` otherwise. -/
def pySubscript0 : Value → Except Err Value
  | .arr (v :: _) => .ok v
  | .arr [] => .error .indexError
  | .bytes (b :: _) => .ok (.int b)
  | .bytes [] => .error .indexError
  | .str s =>
    match utf8Chars s with
    | c :: _ => .ok (.str c)
    | [] => .error .indexError
  | .map kvs =>
    match valueDictGet kvs (.int 0) with
    | some v => .ok v
    | none => .error .dictKeyError
  | _ => .error .typeError

/-- The `while stream.tell() != length` block loop of `parse_car`
(utils.py lines 164-179), accumulating the CID-string-keyed `nodes` dict.
`sha256` is the external `hashlib.sha256(..).digest()`, taken as a parameter.

Faithful quirks kept from the source: the 36-byte CID read is never length
checked; the payload read uses `block_len - 36`, which is negative for
`block_len < 36` and then (like `BytesIO.read` with a negative count)
consumes the whole remaining buffer; there is no minimum-block-length check
of any kind. -/
def parse_car_blocks (sha256 : List Nat → List Nat) :
    Nat → BStream → Nat → List (List Nat × Value) → Except Err (List (List Nat × Value))
  | fuel, stream, length, nodes =>
    if stream.pos = length then .ok nodes
    else
      match fuel with
      | 0 => .error .outOfFuel
      | fuel + 1 =>
        match parse_varint stream with
        | .error e => .error e
        | .ok (block_len, s1) =>
          let block_start := s1.pos
          match s1.readN 36 with
          | (cid_raw, s2) =>
            if startsWithBytes cid_raw [0x01, 0x71, 0x12, 0x20] then
              let cid := 98 :: b32encodeLower cid_raw
              match s2.readN ((block_len : Int) - 36) with
              | (block_data, s3) =>
                let content_hash := sha256 block_data
                if endsWithBytes cid_raw content_hash then
                  match parse_dag_cbor_object fuel ⟨block_data, 0⟩ with
                  | .error e => .error e
                  | .ok (block, bs) =>
                    if bs.remaining = [] then
                      if s3.pos - block_start = block_len then
                        parse_car_blocks sha256 fuel s3 length (assocInsert nodes cid block)
                      else .error .blockLenAssert
                    else .error .blockTrailingAssert
                else .error .cidHashAssert
            else .error .cidStartAssert

/-- `parse_car` (utils.py lines 153-181): varint header length, DAG-CBOR
header (whose decoded-length must match), `version == 1` and a single root,
then the hash-verified block loop.  Returns the root together with the block
mapping; as in the source, every failure aborts the whole parse and no
partial mapping is returned.

The fuel bounds both the two DAG-CBOR recursion depths and the number of loop
iterations; any fuel of at least `stream.data.length + 1` is enough for every
real execution. -/
def parse_car (sha256 : List Nat → List Nat) (fuel : Nat) (stream : BStream)
    (length : Nat) : Except Err (Value × List (List Nat × Value)) :=
  match parse_varint stream with
  | .error e => .error e
  | .ok (header_len, s1) =>
    let header_start := s1.pos
    match parse_dag_cbor_object fuel s1 with
    | .error e => .error e
    | .ok (car_header, s2) =>
      if s2.pos - header_start = header_len then
        match car_header with
        | .map kvs =>
          if pyEqOne (valueDictGet kvs (.str [118, 101, 114, 115, 105, 111, 110])) then
            let roots := (valueDictGet kvs (.str [114, 111, 111, 116, 115])).getD (.arr [])
            match pyLen roots with
            | .error e => .error e
            | .ok n =>
              if n = 1 then
                match pySubscript0 roots with
                | .error e => .error e
                | .ok root =>
                  match parse_car_blocks sha256 fuel s2 length [] with
                  | .error e => .error e
                  | .ok nodes => .ok (root, nodes)
              else .error .rootsAssert
          else .error .versionAssert
        | _ => .error .attributeError
      else .error .headerLenAssert

/-- Python `x <= some_int` left operand for the MST prefix-length assert:
ints compare directly and `bool` is an `int` subclass (`True` is `1`); any
other decoded value raises `TypeError` when compared with an int. -/
def pyAsIntCmp : Value → Except Err Int
  | .int i => .ok i
  | .bool b => .ok (if b then 1 else 0)
  | _ => .error .typeError

/-- Python `b[:p]` on a byte string: a non-negative bound takes at most `p`
leading bytes, a negative bound drops `-p` trailing bytes. -/
def pySliceTo (l : List Nat) (p : Int) : List Nat :=
  if p < 0 then l.take (l.length - (-p).toNat)
  else l.take p.toNat

/-- Python `d[k]` with a string key on a decoded value: dict lookup
(`KeyError` on a miss); every non-dict decoded value raises `TypeError`
under a string subscript. -/
def pyIndexStr (v : Value) (k : List Nat) : Except Err Value :=
  match v with
  | .map kvs =>
    match valueDictGet kvs (.str k) with
    | some r => .ok r
    | none => .error .dictKeyError
  | _ => .error .typeError

/-- Python `d.get(k)` with a string key: `None` (here `none`) on a miss;
`.get` only exists on dicts (`AttributeError` otherwise). -/
def pyDictGetStr (v : Value) (k : List Nat) : Except Err (Option Value) :=
  match v with
  | .map kvs => .ok (valueDictGet kvs (.str k))
  | _ => .error .attributeError

/-- Python `for x in v`: lists yield their elements, a `str` its characters,
a `bytes` its byte values as ints, a dict its keys; scalars raise
`TypeError`. -/
def pyIter : Value → Except Err (List Value)
  | .arr vs => .ok vs
  | .str s => .ok ((utf8Chars s).map .str)
  | .bytes b => .ok (b.map .int)
  | .map kvs => .ok (kvs.map (·.1))
  | _ => .error .typeError

/-- `x in nodes` for the subtree probes of `enumerate_mst_records`: `nodes` is
keyed by CID strings, so only a `str` value can be a member; `None` (missing
key) and other hashable scalars are simply absent; an unhashable value (list
or dict) raises `TypeError`. -/
def probeNodes (v : Option Value) (nodes : List (List Nat × Value)) :
    Except Err (Option Value) :=
  match v with
  | some (.str s) => .ok (assocGet nodes s)
  | some (.arr _) => .error .typeError
  | some (.map _) => .error .typeError
  | _ => .ok none

/-- The `for entry in node["e"]` loop of `enumerate_mst_records`
(utils.py lines 188-195): assert the declared shared-prefix length is at most
the previous key's length, reconstruct `prev_key[:p] + entry["k"]`, advance
the previous-key cursor, record the entry's value CID (overwriting), then
merge an existing `t` subtree.  `rec` is the recursive call on a subtree
node carried by the enclosing function. -/
def mstEntries (rec : Value → Except Err (List (List Nat × Value)))
    (nodes : List (List Nat × Value)) :
    List Value → List Nat → List (List Nat × Value) →
    Except Err (List (List Nat × Value))
  | [], _, records => .ok records
  | entry :: rest, prev_key, records =>
    match pyIndexStr entry [112] with
    | .error e => .error e
    | .ok pv =>
      match pyAsIntCmp pv with
      | .error e => .error e
      | .ok p =>
        if p ≤ (prev_key.length : Int) then
          match pyIndexStr entry [107] with
          | .error e => .error e
          | .ok kv =>
            match kv with
            | .bytes kb =>
              let key := pySliceTo prev_key p ++ kb
              match pyIndexStr entry [118] with
              | .error e => .error e
              | .ok vv =>
                let records1 := assocInsert records key vv
                match pyDictGetStr entry [116] with
                | .error e => .error e
                | .ok tv =>
                  match probeNodes tv nodes with
                  | .error e => .error e
                  | .ok none => mstEntries rec nodes rest key records1
                  | .ok (some child) =>
                    match rec child with
                    | .error e => .error e
                    | .ok sub => mstEntries rec nodes rest key (assocMerge records1 sub)
            | _ => .error .typeError
        else .error .mstPAssert

/-- `enumerate_mst_records` (utils.py lines 184-196) with a recursion-depth
fuel: seed the accumulator with the `l` subtree when its CID is a known
block, then run the entry loop with an empty previous key. -/
def enumerate_mst_records : Nat → List (List Nat × Value) → Value →
    Except Err (List (List Nat × Value))
  | 0, _, _ => .error .outOfFuel
  | fuel + 1, nodes, node =>
    match pyDictGetStr node [108] with
    | .error e => .error e
    | .ok lv =>
      match probeNodes lv nodes with
      | .error e => .error e
      | .ok child? =>
        let seeded : Except Err (List (List Nat × Value)) :=
          match child? with
          | none => .ok []
          | some child =>
            match enumerate_mst_records fuel nodes child with
            | .error e => .error e
            | .ok sub => .ok (assocMerge [] sub)
        match seeded with
        | .error e => .error e
        | .ok records =>
          match pyIndexStr node [101] with
          | .error e => .error e
          | .ok ev =>
            match pyIter ev with
            | .error e => .error e
            | .ok entries =>
              mstEntries (fun child => enumerate_mst_records fuel nodes child)
                nodes entries [] records

/-- `remove_case_insensitive_duplicates` (utils.py lines 9-15): build a dict
keyed by the lowercased item, whose values are the items themselves (later
items overwrite earlier ones with the same key), and return the dict's
values in key-insertion order.  Python's full-Unicode `str.lower` is taken as
the parameter `lower`; every stated property holds for an arbitrary key
function. -/
def remove_case_insensitive_duplicates (lower : List Nat → List Nat)
    (input_list : List (List Nat)) : List (List Nat) :=
  (input_list.foldl (fun d item => assocInsert d (lower item) item) []).map (·.2)

/-- Modelled from the spec: the repository has only a varint decoder, and §8
directs round-trip testing "use encoding as an oracle if only a decoder is
implemented".  This is the standard little-endian base-128 encoding: low 7
bits first, high bit marking a continuation byte. -/
def leb128Encode (n : Nat) : List Nat :=
  if n < 128 then [n]
  else (128 ||| (n % 128)) :: leb128Encode (n / 128)
decreasing_by exact Nat.div_lt_self (by omega) (by omega)

/-- Modelled from the spec: Python's `int.bit_length` (`bitlength(0) = 0`),
the quantity the spec's byte-count formula `ceil(bitlength(n)/7)` refers to. -/
def bitLength (n : Nat) : Nat :=
  if n = 0 then 0 else Nat.log 2 n + 1

/-- First occurrence of each element, in first-occurrence order, skipping
elements already in `seen` — the reference order for the deduplication
claim. -/
def dedupFirstAux {κ : Type} [DecidableEq κ] (seen : List κ) : List κ → List κ
  | [] => []
  | x :: xs => if x ∈ seen then dedupFirstAux seen xs else x :: dedupFirstAux (x :: seen) xs

mutual

/-- Every map anywhere inside a decoded value has only `.str` keys. -/
def keysAreStrings : Value → Bool
  | .int _ => true
  | .bool _ => true
  | .null => true
  | .float _ => true
  | .bytes _ => true
  | .str _ => true
  | .arr vs => keysAreStringsList vs
  | .map kvs => keysAreStringsPairs kvs

/-- `keysAreStrings` over a list of values. -/
def keysAreStringsList : List Value → Bool
  | [] => true
  | v :: vs => keysAreStrings v && keysAreStringsList vs

/-- `keysAreStrings` over a map's entry list: each key is a `.str` and both
key and value recursively satisfy the invariant. -/
def keysAreStringsPairs : List (Value × Value) → Bool
  | [] => true
  | (k, v) :: kvs =>
    (match k with | .str _ => true | _ => false) &&
      keysAreStrings k && keysAreStrings v && keysAreStringsPairs kvs

end

/-- C8: for every head byte whose additional-info field (bottom 5 bits) is 31
— one byte `m * 32 + 31` for each of the eight major types `m` — the head
decoder raises the hard "indefinite lengths not supported" error rather than
interpreting the indefinite-length encoding, whatever bytes follow; no
decoded value is produced. -/
theorem c8_indefinite_length_hard_error (m : Nat) (hm : m < 8) (rest : List Nat) :
    parse_cbor_head ⟨(m * 32 + 31) :: rest, 0⟩ = .error .indefiniteLength := by
  interval_cases m <;> rfl

/-- Witness for `c8_indefinite_length_hard_error`: major type 0, empty tail. -/
theorem c8_indefinite_length_hard_error_witness :
    parse_cbor_head ⟨[31], 0⟩ = .error .indefiniteLength :=
  c8_indefinite_length_hard_error 0 (by norm_num) []

/-- C3, counterexample: the head byte `0x19` (major type 0, additional info
25) requests 2 following bytes; on a stream with no bytes left the head
decoder does not fail with an end-of-input error but silently decodes the
empty read as the big-endian value 0, and the value decoder then returns 0
as a decoded unsigned integer. -/
theorem c3_counterexample :
    parse_cbor_head ⟨[0x19], 0⟩ = .ok (.UNSIGNED_INT, .int 0, ⟨[0x19], 1⟩) ∧
    parse_dag_cbor_object 1 ⟨[0x19], 0⟩ = .ok (.int 0, ⟨[0x19], 1⟩) :=
  ⟨rfl, rfl⟩

/-- Head byte arithmetic: the bottom 5 bits of `m * 32 + ai` are `ai`. -/
theorem headByte_and (m ai : Nat) (hai : ai < 32) : (m * 32 + ai) &&& 31 = ai := by
  have h31 : (31 : Nat) = 2 ^ 5 - 1 := rfl
  rw [h31, Nat.and_pow_two_sub_one_eq_mod]
  omega

/-- Head byte arithmetic: the top 3 bits of `m * 32 + ai` are `m`. -/
theorem headByte_shift (m ai : Nat) (hai : ai < 32) : (m * 32 + ai) >>> 5 = m := by
  rw [Nat.shiftRight_eq_div_pow]
  omega

/-- A multi-byte head read on a stream with fewer bytes than requested: the
head decoder performs no end-of-input check and hands the truncated bytes to
the per-major-type dispatch (big-endian decode, `-1 -` adjustment, or the
float byte-length checks). -/
theorem parse_cbor_head_truncated (m ai blen : Nat) (mt : MajorType) (rest : List Nat)
    (hmt : MajorType.fromNat m = some mt)
    (hai : (ai, blen) = (24, 1) ∨ (ai, blen) = (25, 2) ∨
      (ai, blen) = (26, 4) ∨ (ai, blen) = (27, 8))
    (hlen : rest.length < blen) :
    parse_cbor_head ⟨(m * 32 + ai) :: rest, 0⟩ =
      (if mt = .NEGATIVE_INT then
        .ok (mt, .int (-1 - (intFromBytesBE rest : Int)), ⟨(m * 32 + ai) :: rest, 1 + rest.length⟩)
      else if mt = .FLOAT then
        (if rest.length = 1 then .error .invalidFloat
         else if rest.length = 2 ∨ rest.length = 4 ∨ rest.length = 8 then
           .ok (mt, .float rest, ⟨(m * 32 + ai) :: rest, 1 + rest.length⟩)
         else .error .unreachableFloat)
      else .ok (mt, .int (intFromBytesBE rest), ⟨(m * 32 + ai) :: rest, 1 + rest.length⟩)) := by
  rcases hai with h | h | h | h <;> rw [Prod.mk.injEq] at h <;>
      obtain ⟨h1, h2⟩ := h <;> subst h1 <;> subst h2
  · have hr : rest.take 1 = rest := List.take_of_length_le (by omega)
    have ha := headByte_and m 24 (by norm_num)
    have hs := headByte_shift m 24 (by norm_num)
    simp [parse_cbor_head, BStream.readN, ha, hs, hmt, hr]
  · have hr : rest.take 2 = rest := List.take_of_length_le (by omega)
    have ha := headByte_and m 25 (by norm_num)
    have hs := headByte_shift m 25 (by norm_num)
    simp [parse_cbor_head, BStream.readN, ha, hs, hmt, hr]
  · have hr : rest.take 4 = rest := List.take_of_length_le (by omega)
    have ha := headByte_and m 26 (by norm_num)
    have hs := headByte_shift m 26 (by norm_num)
    simp [parse_cbor_head, BStream.readN, ha, hs, hmt, hr]
  · have hr : rest.take 8 = rest := List.take_of_length_le (by omega)
    have ha := headByte_and m 27 (by norm_num)
    have hs := headByte_shift m 27 (by norm_num)
    simp [parse_cbor_head, BStream.readN, ha, hs, hmt, hr]

/-- C3 as amended.  Parts 1 and 2: the value decoder's string-body reads
(byte string and text string) fail with the fatal end-of-input error
whenever fewer bytes remain than the head requested.  Part 3: reading the
initial head byte of an exhausted stream fails (`IndexError`).  But the
head decoder's multi-byte reads (additional info 24/25/26/27 requesting
1/2/4/8 following bytes) perform no end-of-input check: part 4 — under
every major type other than negative-int and float the truncated read's
bytes (possibly none) are silently decoded as a big-endian value instead of
failing; part 5 — under the negative-int major they are silently decoded as
`-1` minus that value; part 6 — only the float major's byte-length dispatch
then rejects the short read, and with "invalid" (1 byte) or "unreachable"
(any other actual length outside 2/4/8), never with an end-of-input
error. -/
theorem c3_amended_eof_behaviour :
    (∀ (s : BStream) (fuel : Nat) (n : Int) (s1 : BStream),
      parse_cbor_head s = .ok (.BYTE_STRING, .int n, s1) →
      (s1.remaining.length : Int) < n →
      parse_dag_cbor_object (fuel + 1) s = .error .eofError) ∧
    (∀ (s : BStream) (fuel : Nat) (n : Int) (s1 : BStream),
      parse_cbor_head s = .ok (.TEXT_STRING, .int n, s1) →
      (s1.remaining.length : Int) < n →
      parse_dag_cbor_object (fuel + 1) s = .error .eofError) ∧
    (∀ s : BStream, s.remaining = [] → parse_cbor_head s = .error .indexError) ∧
    (∀ (m ai blen : Nat) (rest : List Nat),
      m < 8 → m ≠ 1 → m ≠ 7 →
      ((ai, blen) = (24, 1) ∨ (ai, blen) = (25, 2) ∨
        (ai, blen) = (26, 4) ∨ (ai, blen) = (27, 8)) →
      rest.length < blen →
      ∃ mt, MajorType.fromNat m = some mt ∧
        parse_cbor_head ⟨(m * 32 + ai) :: rest, 0⟩ =
          .ok (mt, .int (intFromBytesBE rest), ⟨(m * 32 + ai) :: rest, 1 + rest.length⟩)) ∧
    (∀ (ai blen : Nat) (rest : List Nat),
      ((ai, blen) = (24, 1) ∨ (ai, blen) = (25, 2) ∨
        (ai, blen) = (26, 4) ∨ (ai, blen) = (27, 8)) →
      rest.length < blen →
      parse_cbor_head ⟨(1 * 32 + ai) :: rest, 0⟩ =
        .ok (.NEGATIVE_INT, .int (-1 - (intFromBytesBE rest : Int)),
          ⟨(1 * 32 + ai) :: rest, 1 + rest.length⟩)) ∧
    (∀ (ai blen : Nat) (rest : List Nat),
      ((ai, blen) = (24, 1) ∨ (ai, blen) = (25, 2) ∨
        (ai, blen) = (26, 4) ∨ (ai, blen) = (27, 8)) →
      rest.length < blen →
      rest.length ≠ 2 → rest.length ≠ 4 → rest.length ≠ 8 →
      parse_cbor_head ⟨(7 * 32 + ai) :: rest, 0⟩ =
        .error (if rest.length = 1 then .invalidFloat else .unreachableFloat)) := by
  refine ⟨?_, ?_, ?_, ?_, ?_, ?_⟩
  · intro s fuel n s1 hhead hlen
    simp only [BStream.remaining] at hlen
    have hn : ¬ n < 0 := by omega
    have hne : ¬ (((s1.data.drop s1.pos).take n.toNat).length : Int) = n := by
      rw [List.length_take]
      omega
    unfold parse_dag_cbor_object
    rw [hhead]
    simp only [BStream.readN, if_neg hn, if_neg hne]
  · intro s fuel n s1 hhead hlen
    simp only [BStream.remaining] at hlen
    have hn : ¬ n < 0 := by omega
    have hne : ¬ (((s1.data.drop s1.pos).take n.toNat).length : Int) = n := by
      rw [List.length_take]
      omega
    unfold parse_dag_cbor_object
    rw [hhead]
    simp only [BStream.readN, if_neg hn, if_neg hne]
  · intro s h
    simp only [BStream.remaining] at h
    unfold parse_cbor_head
    simp [BStream.readN, h]
  · intro m ai blen rest hm8 hm1 hm7 hai hlen
    interval_cases m
    · exact ⟨.UNSIGNED_INT, rfl, by rw [parse_cbor_head_truncated 0 ai blen _ rest rfl hai hlen]; simp⟩
    · exact absurd rfl hm1
    · exact ⟨.BYTE_STRING, rfl, by rw [parse_cbor_head_truncated 2 ai blen _ rest rfl hai hlen]; simp⟩
    · exact ⟨.TEXT_STRING, rfl, by rw [parse_cbor_head_truncated 3 ai blen _ rest rfl hai hlen]; simp⟩
    · exact ⟨.ARRAY, rfl, by rw [parse_cbor_head_truncated 4 ai blen _ rest rfl hai hlen]; simp⟩
    · exact ⟨.MAP, rfl, by rw [parse_cbor_head_truncated 5 ai blen _ rest rfl hai hlen]; simp⟩
    · exact ⟨.TAG, rfl, by rw [parse_cbor_head_truncated 6 ai blen _ rest rfl hai hlen]; simp⟩
    · exact absurd rfl hm7
  · intro ai blen rest hai hlen
    rw [parse_cbor_head_truncated 1 ai blen .NEGATIVE_INT rest rfl hai hlen]
    simp
  · intro ai blen rest hai hlen hne2 hne4 hne8
    rw [parse_cbor_head_truncated 7 ai blen .FLOAT rest rfl hai hlen]
    by_cases h1 : rest.length = 1
    · simp [h1]
    · simp [h1, hne2, hne4, hne8]

/-- Witness for `c3_amended_eof_behaviour`: a byte-string head requesting 32
bytes with none remaining fails with `EOFError`. -/
theorem c3_amended_eof_behaviour_witness :
    parse_dag_cbor_object 1 ⟨[0x58, 0x20], 0⟩ = .error .eofError :=
  c3_amended_eof_behaviour.1 ⟨[0x58, 0x20], 0⟩ 0 32 ⟨[0x58, 0x20], 2⟩ rfl (by decide)

/-- The head decoder only ever produces scalar head values (ints, booleans,
null, float bytes), which trivially satisfy the map-key invariant. -/
theorem parse_cbor_head_scalar (s : BStream) (mt : MajorType) (info : Value) (s1 : BStream)
    (h : parse_cbor_head s = .ok (mt, info, s1)) : keysAreStrings info = true := by
  unfold parse_cbor_head at h
  repeat' (first | (split at h) | (simp only [] at h))
  all_goals try cases h
  all_goals rfl

/-- `parseItems` preserves the map-key invariant elementwise. -/
theorem parseItems_keys (p : BStream → Except Err (Value × BStream))
    (hp : ∀ s v s1, p s = .ok (v, s1) → keysAreStrings v = true) :
    ∀ (n : Nat) (s : BStream) (vs : List Value) (s1 : BStream),
      parseItems p n s = .ok (vs, s1) → keysAreStringsList vs = true := by
  intro n
  induction n with
  | zero =>
    intro s vs s1 h
    simp only [parseItems, Except.ok.injEq, Prod.mk.injEq] at h
    obtain ⟨h1, _⟩ := h
    subst h1
    rfl
  | succ n ih =>
    intro s vs s1 h
    simp only [parseItems] at h
    cases hps : p s with
    | error e => rw [hps] at h; cases h
    | ok r =>
      obtain ⟨v, s2⟩ := r
      rw [hps] at h
      simp only [] at h
      cases hrest : parseItems p n s2 with
      | error e => rw [hrest] at h; cases h
      | ok r2 =>
        obtain ⟨vs2, s3⟩ := r2
        rw [hrest] at h
        simp only [Except.ok.injEq, Prod.mk.injEq] at h
        obtain ⟨h1, _⟩ := h
        subst h1
        simp only [keysAreStringsList, Bool.and_eq_true]
        exact ⟨hp _ _ _ hps, ih _ _ _ hrest⟩

/-- Dict update with a string key and an invariant-satisfying value
preserves the map-key invariant of the entry list. -/
theorem valueDictInsert_keys (ks : List Nat) (v : Value)
    (hv : keysAreStrings v = true) :
    ∀ (acc : List (Value × Value)), keysAreStringsPairs acc = true →
      keysAreStringsPairs (valueDictInsert acc (.str ks) v) = true := by
  intro acc
  induction acc with
  | nil =>
    intro _
    simp [valueDictInsert, keysAreStringsPairs, keysAreStrings, hv]
  | cons kv rest ih =>
    intro hacc
    obtain ⟨k0, v0⟩ := kv
    simp only [keysAreStringsPairs, Bool.and_eq_true] at hacc
    obtain ⟨⟨⟨hk0m, hk0⟩, hv0⟩, hrest⟩ := hacc
    simp only [valueDictInsert]
    split
    · simp only [keysAreStringsPairs, Bool.and_eq_true]
      exact ⟨⟨⟨hk0m, hk0⟩, hv⟩, hrest⟩
    · simp only [keysAreStringsPairs, Bool.and_eq_true]
      exact ⟨⟨⟨hk0m, hk0⟩, hv0⟩, ih hrest⟩

/-- `parseMapItems` produces invariant-satisfying entry lists from
invariant-satisfying accumulators. -/
theorem parseMapItems_keys (p : BStream → Except Err (Value × BStream))
    (hp : ∀ s v s1, p s = .ok (v, s1) → keysAreStrings v = true) :
    ∀ (n : Nat) (s : BStream) (acc kvs : List (Value × Value)) (s1 : BStream),
      keysAreStringsPairs acc = true →
      parseMapItems p n s acc = .ok (kvs, s1) → keysAreStringsPairs kvs = true := by
  intro n
  induction n with
  | zero =>
    intro s acc kvs s1 hacc h
    simp only [parseMapItems, Except.ok.injEq, Prod.mk.injEq] at h
    obtain ⟨h1, _⟩ := h
    subst h1
    exact hacc
  | succ n ih =>
    intro s acc kvs s1 hacc h
    simp only [parseMapItems] at h
    cases hps : p s with
    | error e => rw [hps] at h; cases h
    | ok r =>
      obtain ⟨key, s2⟩ := r
      rw [hps] at h
      simp only [] at h
      cases key with
      | str ks =>
        cases hps2 : p s2 with
        | error e => rw [hps2] at h; cases h
        | ok r2 =>
          obtain ⟨v, s3⟩ := r2
          rw [hps2] at h
          simp only [] at h
          exact ih _ _ _ _ (valueDictInsert_keys ks v (hp _ _ _ hps2) acc hacc) h
      | int i => cases h
      | bool b => cases h
      | null => cases h
      | float bs => cases h
      | bytes b => cases h
      | arr vs => cases h
      | map m => cases h

/-- C6: every map key must itself decode to a text string.  Part 1: every
value successfully decoded by `parse_dag_cbor_object` satisfies
`keysAreStrings`: each map anywhere inside it has only text-string keys
(the embedding stores decoded keys as `Value`s precisely so that this is a
real statement about what the key check admits).  Part 2: a map whose first
key decodes to the integer 1 (bytes `A1 01 02`) fails with the
"DAG-CBOR only accepts strings as map keys" error instead of coercing or
skipping the key. -/
theorem c6_map_keys_must_be_strings :
    (∀ (fuel : Nat) (s : BStream) (v : Value) (s1 : BStream),
      parse_dag_cbor_object fuel s = .ok (v, s1) → keysAreStrings v = true) ∧
    parse_dag_cbor_object 2 ⟨[0xA1, 0x01, 0x02], 0⟩ = .error .mapKeyValueError := by
  constructor
  · intro fuel
    induction fuel with
    | zero =>
      intro s v s1 h
      simp only [parse_dag_cbor_object] at h
      cases h
    | succ fuel ih =>
      intro s v s1 h
      unfold parse_dag_cbor_object at h
      cases hh : parse_cbor_head s with
      | error e => rw [hh] at h; cases h
      | ok r =>
        obtain ⟨mt, info, s2⟩ := r
        rw [hh] at h
        simp only [] at h
        have hinfo := parse_cbor_head_scalar s mt info s2 hh
        cases mt with
        | UNSIGNED_INT => cases h; exact hinfo
        | NEGATIVE_INT => cases h; exact hinfo
        | FLOAT => cases h; exact hinfo
        | BYTE_STRING =>
          cases info with
          | int n =>
            simp only [] at h
            rcases hread : s2.readN n with ⟨value, s3⟩
            rw [hread] at h
            simp only [] at h
            split at h
            · cases h; rfl
            · cases h
          | bool b => cases h
          | null => cases h
          | float bs => cases h
          | bytes b => cases h
          | str t => cases h
          | arr vs => cases h
          | map m => cases h
        | TEXT_STRING =>
          cases info with
          | int n =>
            simp only [] at h
            rcases hread : s2.readN n with ⟨value, s3⟩
            rw [hread] at h
            simp only [] at h
            split at h
            · split at h
              · cases h; rfl
              · cases h
            · cases h
          | bool b => cases h
          | null => cases h
          | float bs => cases h
          | bytes b => cases h
          | str t => cases h
          | arr vs => cases h
          | map m => cases h
        | ARRAY =>
          cases info with
          | int n =>
            simp only [] at h
            cases harr : parseItems (fun s3 => parse_dag_cbor_object fuel s3) n.toNat s2 with
            | error e => rw [harr] at h; cases h
            | ok r2 =>
              obtain ⟨values, s3⟩ := r2
              rw [harr] at h
              cases h
              simpa only [keysAreStrings] using
                parseItems_keys _ (fun s v s1 hps => ih s v s1 hps) _ _ _ _ harr
          | bool b => cases h
          | null => cases h
          | float bs => cases h
          | bytes b => cases h
          | str t => cases h
          | arr vs => cases h
          | map m => cases h
        | MAP =>
          cases info with
          | int n =>
            simp only [] at h
            cases hmap : parseMapItems (fun s3 => parse_dag_cbor_object fuel s3) n.toNat s2 [] with
            | error e => rw [hmap] at h; cases h
            | ok r2 =>
              obtain ⟨values, s3⟩ := r2
              rw [hmap] at h
              cases h
              simpa only [keysAreStrings] using
                parseMapItems_keys _ (fun s v s1 hps => ih s v s1 hps)
                  n.toNat s2 [] _ _ rfl hmap
          | bool b => cases h
          | null => cases h
          | float bs => cases h
          | bytes b => cases h
          | str t => cases h
          | arr vs => cases h
          | map m => cases h
        | TAG =>
          cases info with
          | int i =>
            simp only [] at h
            split at h
            · cases h
            · cases htag : parse_dag_cbor_object fuel s2 with
              | error e => rw [htag] at h; cases h
              | ok r2 =>
                obtain ⟨cid_bytes, s3⟩ := r2
                rw [htag] at h
                simp only [] at h
                cases cid_bytes with
                | bytes cb =>
                  simp only [] at h
                  by_cases hl : cb.length ≠ 37
                  · rw [if_pos hl] at h; cases h
                  · rw [if_neg hl] at h
                    by_cases hs : (startsWithBytes cb [0x00, 0x01, 0x71, 0x12, 0x20] ||
                        startsWithBytes cb [0x00, 0x01, 0x55, 0x12, 0x20]) = true
                    · rw [if_pos hs] at h; cases h; rfl
                    · rw [if_neg hs] at h; cases h
                | int j => cases h
                | bool b => cases h
                | null => cases h
                | float bs => cases h
                | str t => cases h
                | arr vs => cases h
                | map m => cases h
          | bool b => cases h
          | null => cases h
          | float bs => cases h
          | bytes b => cases h
          | str t => cases h
          | arr vs => cases h
          | map m => cases h
  · rfl

/-- Witness for `c6_map_keys_must_be_strings`: the decoded map
`{"a": 2}` (bytes `A1 61 61 02`) satisfies the key invariant. -/
theorem c6_map_keys_must_be_strings_witness :
    keysAreStrings (.map [(.str [97], .int 2)]) = true :=
  c6_map_keys_must_be_strings.1 2 ⟨[0xA1, 0x61, 0x61, 0x02], 0⟩
    (.map [(.str [97], .int 2)]) ⟨[0xA1, 0x61, 0x61, 0x02], 4⟩ rfl

/-- A CAR whose header is `{"version": 1, "roots": []}`: varint header length
17, then the 17 header bytes; no blocks. -/
def rootsLen0Car : List Nat :=
  [0x11, 0xA2, 0x67, 0x76, 0x65, 0x72, 0x73, 0x69, 0x6F, 0x6E, 0x01,
   0x65, 0x72, 0x6F, 0x6F, 0x74, 0x73, 0x80]

/-- `pyLen` fails only with a `TypeError`. -/
theorem pyLen_error_is_typeError (v : Value) (e : Err) (h : pyLen v = .error e) :
    e = .typeError := by
  cases v <;> simp only [pyLen] at h <;> (try cases h) <;> rfl

/-- C7: whenever the decoded container header is a map that does not carry
`version == 1` together with a `roots` value of length exactly 1 (missing
entries included: a missing `version` is not `1`, and a missing `roots`
defaults to the empty list of length 0), `parse_car` fails with one of the
header-phase errors — all raised before the block loop is ever entered — and,
the result being an `Except.error`, no block mapping (partial or otherwise)
is produced. -/
theorem c7_header_checks_fail_before_blocks
    (sha256 : List Nat → List Nat) (fuel : Nat) (stream : BStream) (length : Nat)
    (header_len : Nat) (s1 s2 : BStream) (kvs : List (Value × Value))
    (hvar : parse_varint stream = .ok (header_len, s1))
    (hhdr : parse_dag_cbor_object fuel s1 = .ok (.map kvs, s2))
    (hbad : ¬(pyEqOne (valueDictGet kvs (.str [118, 101, 114, 115, 105, 111, 110])) = true ∧
      pyLen ((valueDictGet kvs (.str [114, 111, 111, 116, 115])).getD (.arr [])) = .ok 1)) :
    ∃ e, parse_car sha256 fuel stream length = .error e ∧
      (e = .headerLenAssert ∨ e = .versionAssert ∨ e = .rootsAssert ∨ e = .typeError) := by
  unfold parse_car
  rw [hvar]
  simp only []
  rw [hhdr]
  simp only []
  by_cases hfr : s2.pos - s1.pos = header_len
  · rw [if_pos hfr]
    by_cases hver : pyEqOne (valueDictGet kvs (.str [118, 101, 114, 115, 105, 111, 110])) = true
    · rw [if_pos hver]
      cases hlen : pyLen ((valueDictGet kvs (.str [114, 111, 111, 116, 115])).getD (.arr [])) with
      | error e =>
        have he := pyLen_error_is_typeError _ _ hlen
        subst he
        exact ⟨.typeError, by simp only [], by simp⟩
      | ok n =>
        have hn : ¬ n = 1 := by
          intro h1
          exact hbad ⟨hver, h1 ▸ hlen⟩
        exact ⟨.rootsAssert, by simp only [if_neg hn], by simp⟩
    · rw [if_neg hver]
      exact ⟨.versionAssert, rfl, by simp⟩
  · rw [if_neg hfr]
    exact ⟨.headerLenAssert, rfl, by simp⟩

/-- Witness for `c7_header_checks_fail_before_blocks`: a container declaring
`roots` of length 0 fails in the header phase. -/
theorem c7_header_checks_fail_before_blocks_witness :
    ∃ e, parse_car (fun _ => []) 10 ⟨rootsLen0Car, 0⟩ 18 = .error e ∧
      (e = .headerLenAssert ∨ e = .versionAssert ∨ e = .rootsAssert ∨ e = .typeError) :=
  c7_header_checks_fail_before_blocks (fun _ => []) 10 ⟨rootsLen0Car, 0⟩ 18 17
    ⟨rootsLen0Car, 1⟩ ⟨rootsLen0Car, 18⟩
    [(.str [118, 101, 114, 115, 105, 111, 110], .int 1),
     (.str [114, 111, 111, 116, 115], .arr [])]
    rfl rfl (by rintro ⟨h1, h2⟩; simp [pyLen, valueDictGet, Value.atomEq] at h2)

/-- Varint header length 18 followed by the DAG-CBOR header
`{"version": 1, "roots": [1]}` (a root of integer 1 — the source applies no
type check to the root value). -/
def carHeaderOK : List Nat :=
  [0x12, 0xA2, 0x67, 0x76, 0x65, 0x72, 0x73, 0x69, 0x6F, 0x6E, 0x01,
   0x65, 0x72, 0x6F, 0x6F, 0x74, 0x73, 0x81, 0x01]

/-- A CAR whose single block declares length 37, carries the DAG-CBOR /
SHA-256 CID prefix with a claimed digest of 32 `0xAA` bytes, and a 1-byte
payload; total stream length 57. -/
def badDigestCar : List Nat :=
  carHeaderOK ++ [0x25] ++ [0x01, 0x71, 0x12, 0x20] ++ List.replicate 32 0xAA ++ [0x01]

/-- C1: part 1 — at any point of the block loop (any accumulated `nodes`
mapping, any stream position, any hash function standing in for the external
`hashlib.sha256`), if the current block's 36-byte CID layout does not end
with the digest recomputed over the payload just read, the loop aborts with
the digest-assert integrity error; the accumulated mapping is discarded and,
the result being an `Except.error`, the caller receives no partial block
mapping.  Part 2 — end-to-end on a synthetic container with header
`{version: 1, roots: [1]}` and one block whose claimed digest (32 × `0xAA`)
differs from the recomputed one: `parse_car` itself returns exactly that
integrity error and no mapping. -/
theorem c1_digest_mismatch_is_fatal :
    (∀ (sha256 : List Nat → List Nat) (fuel : Nat) (s : BStream) (length : Nat)
       (nodes : List (List Nat × Value)) (block_len : Nat) (s1 : BStream)
       (cid_raw block_data : List Nat) (s2 s3 : BStream),
      s.pos ≠ length →
      parse_varint s = .ok (block_len, s1) →
      s1.readN 36 = (cid_raw, s2) →
      startsWithBytes cid_raw [0x01, 0x71, 0x12, 0x20] = true →
      s2.readN ((block_len : Int) - 36) = (block_data, s3) →
      endsWithBytes cid_raw (sha256 block_data) = false →
      parse_car_blocks sha256 (fuel + 1) s length nodes = .error .cidHashAssert) ∧
    parse_car (fun _ => List.replicate 32 0) 10 ⟨badDigestCar, 0⟩ 57 = .error .cidHashAssert := by
  constructor
  · intro sha256 fuel s length nodes block_len s1 cid_raw block_data s2 s3
      hpos hvar hr36 hpfx hrp hend
    unfold parse_car_blocks
    rw [if_neg hpos]
    simp only []
    rw [hvar]
    simp only []
    rw [hr36]
    simp only []
    rw [hpfx]
    simp only [if_pos]
    rw [hrp]
    simp only []
    rw [hend]
    simp only [Bool.false_eq_true, if_false]
  · rfl

/-- Witness for `c1_digest_mismatch_is_fatal`: the block loop entered at the
block boundary of `badDigestCar` fails with the digest error. -/
theorem c1_digest_mismatch_is_fatal_witness :
    parse_car_blocks (fun _ => List.replicate 32 0) 10 ⟨badDigestCar, 19⟩ 57 []
      = .error .cidHashAssert :=
  c1_digest_mismatch_is_fatal.1 (fun _ => List.replicate 32 0) 9 ⟨badDigestCar, 19⟩ 57 []
    37 ⟨badDigestCar, 20⟩ ([0x01, 0x71, 0x12, 0x20] ++ List.replicate 32 0xAA) [0x01]
    ⟨badDigestCar, 56⟩ ⟨badDigestCar, 57⟩
    (by decide) rfl rfl (by decide) rfl (by decide)

/-- Like `badDigestCar` but the block's 36-byte CID carries the CID v1 /
raw / SHA-256 prefix `01 55 12 20`, and its claimed digest (32 zero bytes)
matches the constant stand-in hash, so the prefix check is the only thing
that can fail. -/
def rawPfxCar : List Nat :=
  carHeaderOK ++ [0x25] ++ [0x01, 0x55, 0x12, 0x20] ++ List.replicate 32 0x00 ++ [0x01]

/-- C2, counterexample: a container block whose 36-byte CID carries the
raw / SHA-256 prefix (`01 55 12 20`) is rejected by the container parser
with the CID-prefix assertion — it is not accepted, contradicting the claim
(the digest in this container is consistent, so nothing else can fail). -/
theorem c2_counterexample :
    parse_car (fun _ => List.replicate 32 0) 10 ⟨rawPfxCar, 0⟩ 57 = .error .cidStartAssert :=
  rfl



/-- Tag-42 step: a 37-byte `bytes` payload with an accepted multibase
layout decodes to the base32 CID string. -/
theorem parse_dag_tag42_accepts (s s1 s2 : BStream) (fuel : Nat) (cb : List Nat)
    (hh : parse_cbor_head s = .ok (.TAG, .int 42, s1))
    (hb : parse_dag_cbor_object fuel s1 = .ok (.bytes cb, s2))
    (hl : cb.length = 37)
    (hpfx : (startsWithBytes cb [0x00, 0x01, 0x71, 0x12, 0x20] ||
      startsWithBytes cb [0x00, 0x01, 0x55, 0x12, 0x20]) = true) :
    parse_dag_cbor_object (fuel + 1) s = .ok (.str (98 :: b32encodeLower (cb.drop 1)), s2) := by
  unfold parse_dag_cbor_object
  rw [hh]
  simp only []
  rw [if_neg (by norm_num : ¬ (42:Int) ≠ 42)]
  rw [hb]
  simp only []
  rw [if_neg (by omega : ¬ cb.length ≠ 37)]
  rw [if_pos hpfx]

/-- Byte-string step: when enough bytes remain, the value decoder returns
exactly the requested bytes and advances by that count. -/
theorem parse_dag_byte_string_read (s s1 : BStream) (fuel n : Nat)
    (hh : parse_cbor_head s = .ok (.BYTE_STRING, .int (n : Int), s1))
    (hlen : n ≤ s1.remaining.length) :
    parse_dag_cbor_object (fuel + 1) s =
      .ok (.bytes (s1.remaining.take n), ⟨s1.data, s1.pos + n⟩) := by
  simp only [BStream.remaining] at hlen
  unfold parse_dag_cbor_object
  rw [hh]
  simp only [BStream.readN, BStream.remaining]
  rw [if_neg (by omega : ¬ (n : Int) < 0)]
  have ht : (n : Int).toNat = n := by omega
  rw [ht]
  have hmin : ((s1.data.drop s1.pos).take n).length = n := by
    rw [List.length_take]
    omega
  rw [if_pos (by rw [hmin])]
  rw [hmin]


/-- Tag-42 step: a 37-byte `bytes` payload matching neither accepted
multibase layout is rejected. -/
theorem parse_dag_tag42_rejects (s s1 s2 : BStream) (fuel : Nat) (cb : List Nat)
    (hh : parse_cbor_head s = .ok (.TAG, .int 42, s1))
    (hb : parse_dag_cbor_object fuel s1 = .ok (.bytes cb, s2))
    (hl : cb.length = 37)
    (hpfx : (startsWithBytes cb [0x00, 0x01, 0x71, 0x12, 0x20] ||
      startsWithBytes cb [0x00, 0x01, 0x55, 0x12, 0x20]) = false) :
    parse_dag_cbor_object (fuel + 1) s = .error .cidStartTagAssert := by
  unfold parse_dag_cbor_object
  rw [hh]
  simp only []
  rw [if_neg (by norm_num : ¬ (42:Int) ≠ 42)]
  rw [hb]
  simp only []
  rw [if_neg (by omega : ¬ cb.length ≠ 37)]
  rw [hpfx]
  simp only [Bool.false_eq_true, if_false]

/-- C2 as amended: the 37-byte embedded-link validation in the tag-42
branch accepts exactly the two prefixes — part 1 decodes a full tag-42 link
for each of the codec bytes `0x71` (DAG-CBOR) and `0x55` (raw) over any
32-byte digest, and part 2 rejects every 37-byte payload carrying any other
prefix — while the container parser's 36-byte block-CID check accepts only
the CID v1 / DAG-CBOR / SHA-256 prefix: part 3 shows the block loop failing
with the CID-prefix assertion whenever the 36 bytes read do not start with
`01 71 12 20`, which in particular rejects every raw-prefixed block. -/
theorem c2_amended_prefix_validation :
    (∀ (pb : Nat), pb = 0x71 ∨ pb = 0x55 → ∀ (tail rest : List Nat), tail.length = 32 →
      parse_dag_cbor_object 2
          ⟨[0xD8, 0x2A, 0x58, 0x25, 0x00, 0x01, pb, 0x12, 0x20] ++ tail ++ rest, 0⟩ =
        .ok (.str (98 :: b32encodeLower ([0x01, pb, 0x12, 0x20] ++ tail)),
          ⟨[0xD8, 0x2A, 0x58, 0x25, 0x00, 0x01, pb, 0x12, 0x20] ++ tail ++ rest, 41⟩)) ∧
    (∀ (s s1 s2 : BStream) (fuel : Nat) (cb : List Nat),
      parse_cbor_head s = .ok (.TAG, .int 42, s1) →
      parse_dag_cbor_object fuel s1 = .ok (.bytes cb, s2) →
      cb.length = 37 →
      (startsWithBytes cb [0x00, 0x01, 0x71, 0x12, 0x20] ||
        startsWithBytes cb [0x00, 0x01, 0x55, 0x12, 0x20]) = false →
      parse_dag_cbor_object (fuel + 1) s = .error .cidStartTagAssert) ∧
    (∀ (sha256 : List Nat → List Nat) (fuel : Nat) (s : BStream) (length : Nat)
       (nodes : List (List Nat × Value)) (block_len : Nat) (s1 : BStream)
       (cid_raw : List Nat) (s2 : BStream),
      s.pos ≠ length →
      parse_varint s = .ok (block_len, s1) →
      s1.readN 36 = (cid_raw, s2) →
      startsWithBytes cid_raw [0x01, 0x71, 0x12, 0x20] = false →
      parse_car_blocks sha256 (fuel + 1) s length nodes = .error .cidStartAssert) := by
  refine ⟨?_, parse_dag_tag42_rejects, ?_⟩
  · intro pb hpb tail rest hlen
    have htake : (tail ++ rest).take 32 = tail := List.take_left' hlen
    have h1 : parse_cbor_head ⟨[0xD8, 0x2A, 0x58, 0x25, 0x00, 0x01, pb, 0x12, 0x20] ++ tail ++ rest, 0⟩
        = .ok (.TAG, .int 42, ⟨[0xD8, 0x2A, 0x58, 0x25, 0x00, 0x01, pb, 0x12, 0x20] ++ tail ++ rest, 2⟩) := rfl
    have h2 : parse_cbor_head ⟨[0xD8, 0x2A, 0x58, 0x25, 0x00, 0x01, pb, 0x12, 0x20] ++ tail ++ rest, 2⟩
        = .ok (.BYTE_STRING, .int 37, ⟨[0xD8, 0x2A, 0x58, 0x25, 0x00, 0x01, pb, 0x12, 0x20] ++ tail ++ rest, 4⟩) := rfl
    have hrem : (BStream.remaining ⟨[0xD8, 0x2A, 0x58, 0x25, 0x00, 0x01, pb, 0x12, 0x20] ++ tail ++ rest, 4⟩)
        = [0x00, 0x01, pb, 0x12, 0x20] ++ (tail ++ rest) := by
      simp [BStream.remaining]
    have hcb : ([0x00, 0x01, pb, 0x12, 0x20] ++ (tail ++ rest)).take 37
        = [0x00, 0x01, pb, 0x12, 0x20] ++ tail := by
      simp [List.take_succ_cons, htake]
    have hb := parse_dag_byte_string_read
      ⟨[0xD8, 0x2A, 0x58, 0x25, 0x00, 0x01, pb, 0x12, 0x20] ++ tail ++ rest, 2⟩
      ⟨[0xD8, 0x2A, 0x58, 0x25, 0x00, 0x01, pb, 0x12, 0x20] ++ tail ++ rest, 4⟩
      0 37 h2 (by rw [hrem]; simp [hlen])
    rw [hrem, hcb] at hb
    have hres := parse_dag_tag42_accepts
      ⟨[0xD8, 0x2A, 0x58, 0x25, 0x00, 0x01, pb, 0x12, 0x20] ++ tail ++ rest, 0⟩
      ⟨[0xD8, 0x2A, 0x58, 0x25, 0x00, 0x01, pb, 0x12, 0x20] ++ tail ++ rest, 2⟩
      ⟨[0xD8, 0x2A, 0x58, 0x25, 0x00, 0x01, pb, 0x12, 0x20] ++ tail ++ rest, 4 + 37⟩
      1 ([0x00, 0x01, pb, 0x12, 0x20] ++ tail) h1 hb (by simp [hlen])
      (by rcases hpb with h | h <;> subst h <;> simp [startsWithBytes])
    rw [hres]
    simp
  · intro sha256 fuel s length nodes block_len s1 cid_raw s2 hpos hvar hr36 hpfx
    unfold parse_car_blocks
    rw [if_neg hpos]
    simp only []
    rw [hvar]
    simp only []
    rw [hr36]
    simp only []
    rw [hpfx]
    simp only [Bool.false_eq_true, if_false]

/-- Witness for `c2_amended_prefix_validation`: a raw-prefix (`0x55`) link
over a 32-zero-byte digest decodes successfully via the tag-42 path. -/
theorem c2_amended_prefix_validation_witness :
    parse_dag_cbor_object 2
        ⟨[0xD8, 0x2A, 0x58, 0x25, 0x00, 0x01, 0x55, 0x12, 0x20] ++ List.replicate 32 0 ++ [], 0⟩ =
      .ok (.str (98 :: b32encodeLower ([0x01, 0x55, 0x12, 0x20] ++ List.replicate 32 0)),
        ⟨[0xD8, 0x2A, 0x58, 0x25, 0x00, 0x01, 0x55, 0x12, 0x20] ++ List.replicate 32 0 ++ [], 41⟩) :=
  c2_amended_prefix_validation.1 0x55 (Or.inr rfl) (List.replicate 32 0) [] (by simp)

/-- A CAR whose single block declares length 0 (below the 36-byte CID
layout); after the CID read the remaining payload bytes `58 20` are a
truncated byte-string encoding. -/
def shortBlockEofCar : List Nat :=
  carHeaderOK ++ [0x00] ++ [0x01, 0x71, 0x12, 0x20] ++ List.replicate 32 0x00 ++ [0x58, 0x20]

/-- Like `shortBlockEofCar` but the remaining payload byte `01` decodes
cleanly, so the framing assert is what fails. -/
def shortBlockFramingCar : List Nat :=
  carHeaderOK ++ [0x00] ++ [0x01, 0x71, 0x12, 0x20] ++ List.replicate 32 0x00 ++ [0x01]

/-- C9, counterexample: with a declared block length 0 (below 36) the parser
still reads the 36-byte CID layout and then issues a `0 - 36 = -36` byte
read, consuming the whole remaining buffer; here that over-long payload is a
truncated byte-string encoding, so the parse fails with the decoder's
end-of-input error — a failure class outside the claim's enumeration of
"prefix, digest, or framing assertion" (shown disjoint from those errors and
from the header framing error; no dedicated minimum-length error exists in
the embedding at all). -/
theorem c9_counterexample :
    parse_car (fun _ => List.replicate 32 0) 10 ⟨shortBlockEofCar, 0⟩ 58 = .error .eofError ∧
    Err.eofError ≠ .cidStartAssert ∧ Err.eofError ≠ .cidHashAssert ∧
    Err.eofError ≠ .blockLenAssert ∧ Err.eofError ≠ .headerLenAssert :=
  ⟨rfl, by decide, by decide, by decide, by decide⟩

/-- C9 as amended: the container parser never checks a declared block length
against the 36-byte CID layout.  Part 1: for any block whose declared length
is below 36 and whose CID read passes the prefix check, the payload read
(count `block_len - 36`, negative) returns exactly the remaining buffer and
the iteration proceeds to the digest / payload-decode / trailing / framing
checks over it — no minimum-length error exists anywhere.  Part 2: a
concrete such container fails with the framing assertion (declared 0 versus
37 bytes consumed).  A failure may also surface as a payload decode error
(see `c9_counterexample`), not only as a prefix, digest, or framing
assertion. -/
theorem c9_amended_no_min_length_check :
    (∀ (sha256 : List Nat → List Nat) (fuel : Nat) (s : BStream) (length : Nat)
       (nodes : List (List Nat × Value)) (block_len : Nat) (s1 : BStream)
       (cid_raw : List Nat) (s2 : BStream),
      s.pos ≠ length →
      parse_varint s = .ok (block_len, s1) →
      block_len < 36 →
      s1.readN 36 = (cid_raw, s2) →
      startsWithBytes cid_raw [0x01, 0x71, 0x12, 0x20] = true →
      parse_car_blocks sha256 (fuel + 1) s length nodes =
        (if endsWithBytes cid_raw (sha256 s2.remaining) = true then
          (match parse_dag_cbor_object fuel ⟨s2.remaining, 0⟩ with
           | .error e => .error e
           | .ok (block, bs) =>
             if bs.remaining = [] then
               (if s2.pos + s2.remaining.length - s1.pos = block_len then
                 parse_car_blocks sha256 fuel ⟨s2.data, s2.pos + s2.remaining.length⟩ length
                   (assocInsert nodes (98 :: b32encodeLower cid_raw) block)
               else .error .blockLenAssert)
             else .error .blockTrailingAssert)
        else .error .cidHashAssert)) ∧
    parse_car (fun _ => List.replicate 32 0) 10 ⟨shortBlockFramingCar, 0⟩ 57
      = .error .blockLenAssert := by
  constructor
  · intro sha256 fuel s length nodes block_len s1 cid_raw s2
      hpos hvar hlt hr36 hpfx
    have hneg : ((block_len : Int) - 36) < 0 := by omega
    conv_lhs =>
      unfold parse_car_blocks
      rw [if_neg hpos]
      simp only []
      rw [hvar]
      simp only []
      rw [hr36]
      simp only []
      rw [hpfx]
      simp only [if_pos]
      simp only [BStream.readN]
      rw [if_pos hneg]
      simp only []
    simp only [BStream.remaining]
  · rfl

/-- Witness for `c9_amended_no_min_length_check` at the block boundary of
`shortBlockFramingCar`. -/
theorem c9_amended_no_min_length_check_witness :
    parse_car_blocks (fun _ => List.replicate 32 0) 10 ⟨shortBlockFramingCar, 19⟩ 57 []
      = .error .blockLenAssert := by
  rw [c9_amended_no_min_length_check.1 (fun _ => List.replicate 32 0) 9
    ⟨shortBlockFramingCar, 19⟩ 57 [] 0 ⟨shortBlockFramingCar, 20⟩
    ([0x01, 0x71, 0x12, 0x20] ++ List.replicate 32 0x00) ⟨shortBlockFramingCar, 56⟩
    (by decide) rfl (by decide) rfl (by decide)]
  rfl

/-- Value CIDs and node of the specification example
`e = [{p:0, k:"bob", v: cidA}, {p:1, k:"rah", v: cidB}]`. -/
def mstCidA : Value := .str [99, 105, 100, 65]
def mstCidB : Value := .str [99, 105, 100, 66]
def mstEntry1 : Value :=
  .map [(.str [112], .int 0), (.str [107], .bytes [98, 111, 98]), (.str [118], mstCidA)]
def mstEntry2 : Value :=
  .map [(.str [112], .int 1), (.str [107], .bytes [114, 97, 104]), (.str [118], mstCidB)]
def mstExampleNode : Value := .map [(.str [101], .arr [mstEntry1, mstEntry2])]

/-- C4: the MST entry loop.  Part 1: when the entry's declared shared-prefix
length `p` (a non-negative integer, as a length is) does not exceed the
previous key's length and the entry's `t` probe finds nothing, the loop
reconstructs the key as the first `p` bytes of the previous key concatenated
with the suffix bytes `k`, records key → value CID with dict-overwrite
semantics, and continues with the reconstructed key as the new previous key.
Part 2: a declared `p` exceeding the previous key's length is a hard error.
Part 3: the example node with entries `{p:0, k:"bob", v: cidA}` and
`{p:1, k:"rah", v: cidB}` enumerates to exactly
`{"bob": cidA, "brah": cidB}`. -/
theorem c4_mst_entry_reconstruction :
    (∀ (rec : Value → Except Err (List (List Nat × Value)))
       (nodes : List (List Nat × Value)) (entry : Value) (rest : List Value)
       (prev_key : List Nat) (records : List (List Nat × Value))
       (p : Nat) (kb : List Nat) (vv : Value) (tv : Option Value),
      pyIndexStr entry [112] = .ok (.int (p : Int)) →
      pyIndexStr entry [107] = .ok (.bytes kb) →
      pyIndexStr entry [118] = .ok vv →
      pyDictGetStr entry [116] = .ok tv →
      probeNodes tv nodes = .ok none →
      p ≤ prev_key.length →
      mstEntries rec nodes (entry :: rest) prev_key records =
        mstEntries rec nodes rest (prev_key.take p ++ kb)
          (assocInsert records (prev_key.take p ++ kb) vv)) ∧
    (∀ (rec : Value → Except Err (List (List Nat × Value)))
       (nodes : List (List Nat × Value)) (entry : Value) (rest : List Value)
       (prev_key : List Nat) (records : List (List Nat × Value)) (pi : Int),
      pyIndexStr entry [112] = .ok (.int pi) →
      (prev_key.length : Int) < pi →
      mstEntries rec nodes (entry :: rest) prev_key records = .error .mstPAssert) ∧
    enumerate_mst_records 2 [] mstExampleNode =
      .ok [([98, 111, 98], mstCidA), ([98, 114, 97, 104], mstCidB)] := by
  refine ⟨?_, ?_, rfl⟩
  · intro rec nodes entry rest prev_key records p kb vv tv hp hk hv ht hprobe hple
    have hslice : pySliceTo prev_key (p : Int) = prev_key.take p := by
      simp [pySliceTo]
    conv_lhs =>
      unfold mstEntries
      rw [hp]
      simp only [pyAsIntCmp]
      rw [if_pos (by exact_mod_cast hple)]
      rw [hk]
      simp only []
      rw [hv]
      simp only []
      rw [ht]
      simp only []
      rw [hprobe]
      simp only [hslice]
  · intro rec nodes entry rest prev_key records pi hp hgt
    conv_lhs =>
      unfold mstEntries
      rw [hp]
      simp only [pyAsIntCmp]
      rw [if_neg (by omega : ¬ pi ≤ (prev_key.length : Int))]

/-- Witness for `c4_mst_entry_reconstruction`: processing the second example
entry with previous key `"bob"` records `"brah"`. -/
theorem c4_mst_entry_reconstruction_witness :
    mstEntries (fun _ => Except.error Err.outOfFuel) [] [mstEntry2] [98, 111, 98] [] =
      .ok [([98, 114, 97, 104], mstCidB)] := by
  rw [c4_mst_entry_reconstruction.1 (fun _ => Except.error Err.outOfFuel) [] mstEntry2 []
    [98, 111, 98] [] 1 [114, 97, 104] mstCidB none rfl rfl rfl rfl rfl (by decide)]
  rfl

/-- Low 7 bits of a value below 128 are the value itself. -/
theorem nat_and_127 (m : Nat) (h : m < 128) : m &&& 127 = m := by
  have h7 : (127 : Nat) = 2 ^ 7 - 1 := rfl
  rw [h7, Nat.and_pow_two_sub_one_eq_mod]
  exact Nat.mod_eq_of_lt h

/-- A value below 128 has a clear continuation bit. -/
theorem nat_and_128_eq_zero (m : Nat) (h : m < 128) : m &&& 128 = 0 := by
  apply Nat.eq_of_testBit_eq
  intro i
  rw [Nat.testBit_land]
  rcases Nat.lt_or_ge i 7 with hi | hi
  · have : (128 : Nat).testBit i = false := by
      have h2 : (128 : Nat) = 2 ^ 7 := rfl
      rw [h2, Nat.testBit_two_pow]
      simp
      omega
    simp [this]
  · have : m.testBit i = false := by
      apply Nat.testBit_eq_false_of_lt
      calc m < 128 := h
        _ = 2 ^ 7 := rfl
        _ ≤ 2 ^ i := Nat.pow_le_pow_right (by norm_num) hi
    simp [this]

/-- Setting the continuation bit does not disturb the low 7 bits. -/
theorem nat_or128_and_127 (m : Nat) (h : m < 128) : (128 ||| m) &&& 127 = m := by
  apply Nat.eq_of_testBit_eq
  intro i
  rw [Nat.testBit_land, Nat.testBit_lor]
  have h127 : (127 : Nat) = 2 ^ 7 - 1 := rfl
  rw [h127, Nat.testBit_two_pow_sub_one]
  have h128 : (128 : Nat) = 2 ^ 7 := rfl
  rw [h128, Nat.testBit_two_pow]
  rcases Nat.lt_or_ge i 7 with hi | hi
  · simp [Nat.ne_of_gt hi, hi]
  · have hm : m.testBit i = false := by
      apply Nat.testBit_eq_false_of_lt
      calc m < 128 := h
        _ = 2 ^ 7 := rfl
        _ ≤ 2 ^ i := Nat.pow_le_pow_right (by norm_num) hi
    simp [hm]
    omega

/-- A byte with the continuation bit set tests as a continuation. -/
theorem nat_or128_and_128_ne (m : Nat) : (128 ||| m) &&& 128 ≠ 0 := by
  intro hc
  have h7 : ((128 ||| m) &&& 128).testBit 7 = true := by
    rw [Nat.testBit_land, Nat.testBit_lor]
    have h128 : (128 : Nat) = 2 ^ 7 := rfl
    rw [h128, Nat.testBit_two_pow]
    simp
  rw [hc] at h7
  simp [Nat.zero_testBit] at h7

/-- Recombining the low 7 bits and the remaining bits of `n` at adjacent
shifts reproduces `n` at the base shift. -/
theorem leb_split (n shift : Nat) :
    ((n % 128) <<< shift) ||| ((n / 128) <<< (shift + 7)) = n <<< shift := by
  apply Nat.eq_of_testBit_eq
  intro i
  rw [Nat.testBit_lor, Nat.testBit_shiftLeft, Nat.testBit_shiftLeft, Nat.testBit_shiftLeft]
  have hm : (n % 128).testBit (i - shift) = (decide (i - shift < 7) && n.testBit (i - shift)) := by
    have h2 : (128 : Nat) = 2 ^ 7 := rfl
    rw [h2, Nat.testBit_mod_two_pow]
  have hd : (n / 128).testBit (i - (shift + 7)) = n.testBit (7 + (i - (shift + 7))) := by
    have h2 : n / 128 = n >>> 7 := by
      rw [Nat.shiftRight_eq_div_pow]
    rw [h2, Nat.testBit_shiftRight]
  rw [hm, hd]
  by_cases h1 : shift ≤ i
  · by_cases h2 : i - shift < 7
    · have h3 : ¬ (shift + 7 ≤ i) := by omega
      simp [h1, h2, h3]
    · have h3 : shift + 7 ≤ i := by omega
      have h4 : 7 + (i - (shift + 7)) = i - shift := by omega
      simp [h1, h2, h3, h4]
  · have h3 : ¬ (shift + 7 ≤ i) := by omega
    simp [h1, h3]

/-- Round-trip invariant of the varint loop: decoding an encoded `n`
(followed by anything) merges `n <<< shift` into the accumulator and
consumes exactly the encoding's bytes. -/
theorem parse_varint_aux_round (n : Nat) :
    ∀ (shift acc : Nat) (rest : List Nat),
      parse_varint_aux (leb128Encode n ++ rest) shift acc =
        .ok (acc ||| (n <<< shift), (leb128Encode n).length) := by
  induction n using Nat.strong_induction_on with
  | _ n ih =>
    intro shift acc rest
    by_cases h : n < 128
    · rw [leb128Encode, if_pos h]
      simp only [List.singleton_append, List.length_singleton]
      unfold parse_varint_aux
      simp only [nat_and_127 n h, nat_and_128_eq_zero n h]
      simp
    · rw [leb128Encode, if_neg h]
      have hmod : n % 128 < 128 := Nat.mod_lt _ (by norm_num)
      have hdivlt : n / 128 < n := Nat.div_lt_self (by omega) (by norm_num)
      simp only [List.cons_append, List.length_cons]
      unfold parse_varint_aux
      rw [nat_or128_and_127 _ hmod]
      rw [if_neg (nat_or128_and_128_ne _)]
      rw [ih (n / 128) hdivlt (shift + 7) (acc ||| ((n % 128) <<< shift)) rest]
      rw [Nat.lor_assoc, leb_split]

/-- The encoding's byte count is `max 1 (ceil (bitlength n / 7))` — the
`max` is what the spec's bare `ceil(bitlength(n)/7)` misses at `n = 0`. -/
theorem leb_length (n : Nat) : (leb128Encode n).length = max 1 ((bitLength n + 6) / 7) := by
  induction n using Nat.strong_induction_on with
  | _ n ih =>
    by_cases h : n < 128
    · rw [leb128Encode, if_pos h]
      have hb : bitLength n ≤ 7 := by
        unfold bitLength
        split
        · omega
        · have := Nat.log_lt_of_lt_pow (by assumption : n ≠ 0) (show n < 2 ^ 7 by omega)
          omega
      simp only [List.length_singleton]
      omega
    · rw [leb128Encode, if_neg h]
      have hdivlt : n / 128 < n := Nat.div_lt_self (by omega) (by norm_num)
      have hne : n ≠ 0 := by omega
      have hdne : n / 128 ≠ 0 := by
        have h1 : 1 ≤ n / 128 := (Nat.one_le_div_iff (by norm_num)).mpr (by omega)
        omega
      have hlog : Nat.log 2 (n / 128) = Nat.log 2 n - 7 := by
        have hdiv : n / 128 = n / 2 / 2 / 2 / 2 / 2 / 2 / 2 := by omega
        rw [hdiv]
        rw [Nat.log_div_base, Nat.log_div_base, Nat.log_div_base, Nat.log_div_base,
          Nat.log_div_base, Nat.log_div_base, Nat.log_div_base]
        omega
      have hlog7 : 7 ≤ Nat.log 2 n := by
        have := Nat.pow_le_iff_le_log (by norm_num : 1 < 2) hne |>.mp (show 2 ^ 7 ≤ n by omega)
        exact this
      have hbl : bitLength n = bitLength (n / 128) + 7 := by
        unfold bitLength
        rw [if_neg hne, if_neg hdne, hlog]
        omega
      have := ih (n / 128) hdivlt
      simp only [List.length_cons, this, hbl]
      have hb1 : 1 ≤ bitLength (n / 128) := by
        unfold bitLength
        rw [if_neg hdne]
        omega
      omega

/-- C5, counterexample: at `n = 0` the encoding is the single byte `0x00`
and the decoder consumes exactly 1 byte, but the claimed byte count
`ceil(bitlength(0)/7)` is 0 (Python's `(0).bit_length()` is 0), so the
claim's "consumes exactly ceil(bitlength(n)/7) bytes" fails at 0. -/
theorem c5_counterexample :
    leb128Encode 0 = [0x00] ∧
    parse_varint ⟨[0x00], 0⟩ = .ok (0, ⟨[0x00], 1⟩) ∧
    (bitLength 0 + 6) / 7 = 0 :=
  ⟨by simp [leb128Encode], rfl, rfl⟩

/-- C5 as amended: for every `n < 2^35` (in fact the bound is not needed),
decoding the little-endian base-128 encoding of `n` returns `n` and consumes
exactly `max 1 (ceil (bitlength n / 7))` bytes, whatever follows on the
stream; the spec's two examples hold: byte `0x00` decodes to 0 (consuming
one byte) and bytes `0x81 0x01` decode to 129 (consuming two). -/
theorem c5_varint_round_trip (n : Nat) (_hn : n < 2 ^ 35) (rest : List Nat) :
    parse_varint ⟨leb128Encode n ++ rest, 0⟩ =
      .ok (n, ⟨leb128Encode n ++ rest, (leb128Encode n).length⟩) ∧
    (leb128Encode n).length = max 1 ((bitLength n + 6) / 7) ∧
    parse_varint ⟨[0x00], 0⟩ = .ok (0, ⟨[0x00], 1⟩) ∧
    parse_varint ⟨[0x81, 0x01], 0⟩ = .ok (129, ⟨[0x81, 0x01], 2⟩) := by
  refine ⟨?_, leb_length n, rfl, rfl⟩
  unfold parse_varint
  simp only [List.drop_zero]
  rw [parse_varint_aux_round n 0 0 rest]
  simp

/-- Witness for `c5_varint_round_trip` at `n = 300` with a trailing byte. -/
theorem c5_varint_round_trip_witness :
    parse_varint ⟨leb128Encode 300 ++ [7], 0⟩ =
      .ok (300, ⟨leb128Encode 300 ++ [7], (leb128Encode 300).length⟩) ∧
    (leb128Encode 300).length = max 1 ((bitLength 300 + 6) / 7) ∧
    parse_varint ⟨[0x00], 0⟩ = .ok (0, ⟨[0x00], 1⟩) ∧
    parse_varint ⟨[0x81, 0x01], 0⟩ = .ok (129, ⟨[0x81, 0x01], 2⟩) :=
  c5_varint_round_trip 300 (by norm_num) [7]

/-- Lookup after a dict update sees the new binding exactly at its key. -/
theorem assocGet_insert {κ α : Type} [DecidableEq κ] (d : List (κ × α)) (k k' : κ) (v : α) :
    assocGet (assocInsert d k v) k' = if k' = k then some v else assocGet d k' := by
  induction d with
  | nil =>
    by_cases h : k' = k
    · simp [assocInsert, assocGet, h]
    · simp [assocInsert, assocGet, h, Ne.symm h]
  | cons kv rest ih =>
    obtain ⟨k0, v0⟩ := kv
    by_cases h0 : k0 = k
    · subst h0
      by_cases h1 : k0 = k'
      · subst h1
        simp [assocInsert, assocGet]
      · simp [assocInsert, assocGet, h1, Ne.symm h1]
    · by_cases h1 : k0 = k'
      · subst h1
        simp [assocInsert, assocGet, h0, Ne.symm h0, ih]
      · by_cases h2 : k' = k
        · subst h2
          simp [assocInsert, assocGet, h0, h1, Ne.symm h1, ih]
        · simp [assocInsert, assocGet, h0, h1, Ne.symm h1, h2, ih]

/-- A dict update keeps the key list unchanged when the key exists and
appends it otherwise (Python dict insertion order). -/
theorem assocInsert_keys {κ α : Type} [DecidableEq κ] (d : List (κ × α)) (k : κ) (v : α) :
    (assocInsert d k v).map (·.1) =
      if k ∈ d.map (·.1) then d.map (·.1) else d.map (·.1) ++ [k] := by
  induction d with
  | nil => simp [assocInsert]
  | cons kv rest ih =>
    obtain ⟨k0, v0⟩ := kv
    by_cases h0 : k0 = k
    · subst h0
      simp [assocInsert]
    · by_cases hm : k ∈ rest.map (·.1)
      · simp [assocInsert, h0, hm, ih, Ne.symm h0]
      · simp [assocInsert, h0, hm, ih, Ne.symm h0]

/-- `dedupFirstAux` depends on `seen` only through membership. -/
theorem dedupFirstAux_congr {κ : Type} [DecidableEq κ] (s1 s2 : List κ)
    (h : ∀ a, a ∈ s1 ↔ a ∈ s2) : ∀ (l : List κ), dedupFirstAux s1 l = dedupFirstAux s2 l := by
  intro l
  induction l generalizing s1 s2 with
  | nil => simp [dedupFirstAux]
  | cons x xs ih =>
    simp only [dedupFirstAux]
    by_cases hx : x ∈ s1
    · rw [if_pos hx, if_pos ((h x).mp hx)]
      exact ih s1 s2 h
    · rw [if_neg hx, if_neg (fun hc => hx ((h x).mpr hc))]
      congr 1
      apply ih
      intro a
      simp [h a]

/-- The key list of the comprehension dict is the first-occurrence
deduplication of the lowered items, in input order. -/
theorem foldl_insert_keys {κ α : Type} [DecidableEq κ] (lower : α → κ) :
    ∀ (l : List α) (d0 : List (κ × α)),
      ((l.foldl (fun d item => assocInsert d (lower item) item) d0).map (·.1)) =
        d0.map (·.1) ++ dedupFirstAux (d0.map (·.1)) (l.map lower) := by
  intro l
  induction l with
  | nil => simp [dedupFirstAux]
  | cons x xs ih =>
    intro d0
    simp only [List.foldl_cons, List.map_cons, dedupFirstAux]
    rw [ih]
    rw [assocInsert_keys]
    by_cases hm : lower x ∈ d0.map (·.1)
    · rw [if_pos hm, if_pos hm]
    · rw [if_neg hm, if_neg hm]
      rw [dedupFirstAux_congr (d0.map (·.1) ++ [lower x]) (lower x :: d0.map (·.1))
        (by intro a; simp [or_comm]) (xs.map lower)]
      simp

/-- The comprehension dict maps each key to the last input item lowering to
it (falling back to the initial dict). -/
theorem foldl_insert_get {κ α : Type} [DecidableEq κ] (lower : α → κ) (k : κ) :
    ∀ (l : List α) (d0 : List (κ × α)),
      assocGet (l.foldl (fun d item => assocInsert d (lower item) item) d0) k =
        match (l.filter (fun x => decide (lower x = k))).getLast? with
        | some v => some v
        | none => assocGet d0 k := by
  intro l
  induction l using List.reverseRecOn with
  | nil => intro d0; simp
  | append_singleton xs x ih =>
    intro d0
    rw [List.foldl_append]
    simp only [List.foldl_cons, List.foldl_nil]
    rw [assocGet_insert]
    rw [List.filter_append]
    by_cases hx : lower x = k
    · rw [if_pos hx.symm]
      simp [hx]
    · rw [if_neg (fun hc => hx hc.symm)]
      simp only [List.filter_cons, List.filter_nil]
      rw [if_neg (by simpa using hx)]
      simp only [List.append_nil]
      exact ih d0

/-- First-occurrence deduplication yields distinct elements outside `seen`. -/
theorem dedupFirstAux_nodup {κ : Type} [DecidableEq κ] :
    ∀ (l seen : List κ),
      (dedupFirstAux seen l).Nodup ∧ ∀ x ∈ dedupFirstAux seen l, x ∉ seen := by
  intro l
  induction l with
  | nil => intro seen; simp [dedupFirstAux]
  | cons x xs ih =>
    intro seen
    simp only [dedupFirstAux]
    by_cases hx : x ∈ seen
    · rw [if_pos hx]
      exact ih seen
    · rw [if_neg hx]
      obtain ⟨hnd, hmem⟩ := ih (x :: seen)
      refine ⟨?_, ?_⟩
      · rw [List.nodup_cons]
        exact ⟨fun hc => (hmem x hc) (List.mem_cons_self x _), hnd⟩
      · intro y hy
        rcases List.mem_cons.mp hy with h | h
        · subst h; exact hx
        · intro hc
          exact (hmem y h) (List.mem_cons_of_mem _ hc)

/-- Membership in the first-occurrence deduplication. -/
theorem dedupFirstAux_mem {κ : Type} [DecidableEq κ] :
    ∀ (l seen : List κ) (a : κ),
      a ∈ dedupFirstAux seen l ↔ a ∈ l ∧ a ∉ seen := by
  intro l
  induction l with
  | nil => intro seen a; simp [dedupFirstAux]
  | cons x xs ih =>
    intro seen a
    simp only [dedupFirstAux]
    by_cases hx : x ∈ seen
    · rw [if_pos hx, ih]
      constructor
      · rintro ⟨ha, hs⟩
        exact ⟨List.mem_cons_of_mem _ ha, hs⟩
      · rintro ⟨hax, hs⟩
        rcases List.mem_cons.mp hax with h | h
        · subst h; exact absurd hx hs
        · exact ⟨h, hs⟩
    · rw [if_neg hx]
      constructor
      · intro hy
        rcases List.mem_cons.mp hy with h | h
        · subst h; exact ⟨List.mem_cons_self _ _, hx⟩
        · obtain ⟨ha, hs⟩ := (ih (x :: seen) a).mp h
          exact ⟨List.mem_cons_of_mem _ ha,
            fun hc => hs (List.mem_cons_of_mem _ hc)⟩
      · rintro ⟨hax, hs⟩
        rcases List.mem_cons.mp hax with h | h
        · subst h; exact List.mem_cons_self _ _
        · by_cases hax' : a = x
          · subst hax'; exact List.mem_cons_self _ _
          · refine List.mem_cons_of_mem _ ((ih (x :: seen) a).mpr ⟨h, ?_⟩)
            intro hc
            rcases List.mem_cons.mp hc with h' | h'
            · exact hax' h'
            · exact hs h'

/-- With distinct keys, reading a dict's values via lookups over its key
list reproduces the value list. -/
theorem map_values_eq_filterMap {κ α : Type} [DecidableEq κ] :
    ∀ (d : List (κ × α)), (d.map (·.1)).Nodup →
      (d.map (·.1)).filterMap (fun k => assocGet d k) = d.map (·.2) := by
  intro d
  induction d with
  | nil => simp
  | cons kv rest ih =>
    obtain ⟨k0, v0⟩ := kv
    intro hnd
    simp only [List.map_cons, List.nodup_cons] at hnd
    obtain ⟨hk0, hnd2⟩ := hnd
    simp only [List.map_cons, List.filterMap_cons]
    have h1 : assocGet ((k0, v0) :: rest) k0 = some v0 := by simp [assocGet]
    rw [h1]
    have h2 : (rest.map (·.1)).filterMap (fun k => assocGet ((k0, v0) :: rest) k) =
        (rest.map (·.1)).filterMap (fun k => assocGet rest k) := by
      apply List.filterMap_congr
      intro k hk
      simp only [assocGet]
      rw [if_neg (fun hc : k0 = k => hk0 (hc ▸ hk))]
    rw [h2, ih hnd2]

/-- C10: for every key function standing in for Python's `str.lower` and
every input list, `remove_case_insensitive_duplicates` returns, for each
lowercase-equivalence class in order of the class's first occurrence, the
last input item of that class (with its original casing) — stated as: the
result is the first-occurrence deduplication of the lowered items, each key
replaced by the last item lowering to it; the key list has no duplicates
(exactly one element per class) and carries exactly the classes present in
the input. -/
theorem c10_dedup_semantics (lower : List Nat → List Nat) (l : List (List Nat)) :
    remove_case_insensitive_duplicates lower l =
      (dedupFirstAux [] (l.map lower)).filterMap
        (fun k => (l.filter (fun x => decide (lower x = k))).getLast?) ∧
    (dedupFirstAux [] (l.map lower)).Nodup ∧
    (∀ k, k ∈ dedupFirstAux [] (l.map lower) ↔ k ∈ l.map lower) := by
  have hkeys : ((l.foldl (fun d item => assocInsert d (lower item) item) []).map (·.1)) =
      dedupFirstAux [] (l.map lower) := by
    have h := foldl_insert_keys lower l []
    simpa using h
  have hnd : ((l.foldl (fun d item => assocInsert d (lower item) item) []).map (·.1)).Nodup := by
    rw [hkeys]
    exact (dedupFirstAux_nodup (l.map lower) []).1
  have hget : ∀ k, assocGet (l.foldl (fun d item => assocInsert d (lower item) item) []) k =
      (l.filter (fun x => decide (lower x = k))).getLast? := by
    intro k
    rw [foldl_insert_get lower k l []]
    cases (l.filter (fun x => decide (lower x = k))).getLast? <;> rfl
  refine ⟨?_, (dedupFirstAux_nodup (l.map lower) []).1, fun k => by
    rw [dedupFirstAux_mem]; simp⟩
  unfold remove_case_insensitive_duplicates
  rw [← hkeys]
  rw [← map_values_eq_filterMap _ hnd]
  apply List.filterMap_congr
  intro k _
  exact hget k
